import Mathlib

/-!
Verification of the query/aggregation layer of the Committrr Firebase
payments dashboard (`committrr_firebase_dashboard.py`).

The Python source reads two subtrees of a Firebase realtime database
(`payments`, keyed by payment id, and `USER_PROFILES`, keyed by user id),
runs indexed queries with full-scan fallbacks, and reshapes the results
into sorted, filtered, deduplicated record lists.

Shallow embedding conventions:
* A stored payment or profile is modelled as a structure of optional
  fields, following the documented record shape (fields are accessed in
  the source only through `dict.get` with defaults, so a field is either
  present with a typed value or absent).
* A value stored under a key that is not a JSON mapping is modelled by a
  dedicated `malformed` constructor; the source skips such values with
  `isinstance(value, dict)` checks.
* A whole subtree is `missing` (path absent, reads give `None`),
  `leaf` (the path holds a non-mapping value), or `dict entries`.
* Failures of the two read capabilities (indexed query / plain subtree
  get) are modelled by two Boolean switches on the database value;
  Python exceptions are modelled by `Except Unit`, and the source's
  `try/except` blocks by the explicit handler `catchE`.
* Firebase orders the children of an `order_by_child` query by the
  indexed value (absent values first, then numbers ascending) with the
  document key as tie-break, and `limit_to_last n` keeps the last `n`
  entries of that ascending order; `query.get()` returns them as an
  ordered mapping iterated in ascending order.
-/

/-! ### Generic list infrastructure: stable insertion sort by a Boolean
comparator (Python's `sorted`/`list.sort`), and `limit_to_last`. -/

def insSorted (le : α → α → Bool) (a : α) : List α → List α
  | [] => [a]
  | b :: t => if le a b then a :: b :: t else b :: insSorted le a t

def sortByB (le : α → α → Bool) : List α → List α
  | [] => []
  | a :: t => insSorted le a (sortByB le t)

theorem perm_insSorted (le : α → α → Bool) (a : α) (l : List α) :
    List.Perm (insSorted le a l) (a :: l) := by
  induction l with
  | nil => simp [insSorted]
  | cons b t ih =>
    simp only [insSorted]
    by_cases h : le a b = true
    · rw [if_pos h]
    · rw [if_neg h]
      exact (List.Perm.cons b ih).trans (List.Perm.swap a b t)

theorem perm_sortByB (le : α → α → Bool) (l : List α) :
    List.Perm (sortByB le l) l := by
  induction l with
  | nil => simp [sortByB]
  | cons a t ih =>
    exact (perm_insSorted le a (sortByB le t)).trans (List.Perm.cons a ih)

theorem mem_sortByB {le : α → α → Bool} {l : List α} {x : α} :
    x ∈ sortByB le l ↔ x ∈ l :=
  (perm_sortByB le l).mem_iff

theorem length_sortByB (le : α → α → Bool) (l : List α) :
    (sortByB le l).length = l.length :=
  (perm_sortByB le l).length_eq

theorem pairwise_insSorted (le : α → α → Bool)
    (htot : ∀ a b, le a b = true ∨ le b a = true)
    (htrans : ∀ a b c, le a b = true → le b c = true → le a c = true)
    (a : α) (l : List α) (h : l.Pairwise (fun x y => le x y = true)) :
    (insSorted le a l).Pairwise (fun x y => le x y = true) := by
  induction l with
  | nil => simp [insSorted]
  | cons b t ih =>
    rcases List.pairwise_cons.mp h with ⟨hb, ht⟩
    by_cases hab : le a b = true
    · simp only [insSorted, if_pos hab]
      refine List.pairwise_cons.mpr ⟨?_, h⟩
      intro y hy
      rcases List.mem_cons.mp hy with rfl | hyt
      · exact hab
      · exact htrans a b y hab (hb y hyt)
    · have hba : le b a = true := (htot a b).resolve_left hab
      simp only [insSorted, if_neg hab]
      refine List.pairwise_cons.mpr ⟨?_, ih ht⟩
      intro y hy
      have : y ∈ a :: t := (perm_insSorted le a t).mem_iff.mp hy
      rcases List.mem_cons.mp this with rfl | hyt
      · exact hba
      · exact hb y hyt

theorem pairwise_sortByB (le : α → α → Bool)
    (htot : ∀ a b, le a b = true ∨ le b a = true)
    (htrans : ∀ a b c, le a b = true → le b c = true → le a c = true)
    (l : List α) :
    (sortByB le l).Pairwise (fun x y => le x y = true) := by
  induction l with
  | nil => simp [sortByB]
  | cons a t ih => exact pairwise_insSorted le htot htrans a (sortByB le t) ih

/-- `limit_to_last n` on a list already in ascending query order. -/
def takeLast (n : Nat) (l : List α) : List α := l.drop (l.length - n)

theorem length_takeLast_le (n : Nat) (l : List α) : (takeLast n l).length ≤ n := by
  simp only [takeLast, List.length_drop]
  omega

theorem takeLast_subset (n : Nat) (l : List α) : takeLast n l ⊆ l :=
  List.drop_subset _ l

/-- A suffix of a `Pairwise`-sorted list is upward closed: anything of the
original list that is strictly above a suffix element is in the suffix. -/
theorem mem_drop_of_pairwise {R : α → α → Prop} {l : List α} {k : Nat} {a b : α}
    (hp : l.Pairwise R) (ha : a ∈ l.drop k) (hb : b ∈ l) (hnb : ¬ R b a) :
    b ∈ l.drop k := by
  have hsplit := List.take_append_drop k l
  rw [← hsplit] at hp hb
  rcases List.mem_append.mp hb with h | h
  · exact absurd ((List.pairwise_append.mp hp).2.2 b h a ha) hnb
  · exact h

theorem mem_takeLast_of_pairwise {R : α → α → Prop} {l : List α} {n : Nat} {a b : α}
    (hp : l.Pairwise R) (ha : a ∈ takeLast n l) (hb : b ∈ l) (hnb : ¬ R b a) :
    b ∈ takeLast n l :=
  mem_drop_of_pairwise hp ha hb hnb

/-! ### Firebase key order (lexicographic on characters), used as the
tie-break of `order_by_child` queries. -/

def charsLt : List Char → List Char → Bool
  | _, [] => false
  | [], _ :: _ => true
  | a :: as, b :: bs =>
      decide (a.toNat < b.toNat) || (decide (a.toNat = b.toNat) && charsLt as bs)

def keyLe (a b : String) : Bool := decide (a = b) || charsLt a.data b.data

theorem charsLt_total (as bs : List Char) :
    charsLt as bs = true ∨ charsLt bs as = true ∨ as = bs := by
  induction as generalizing bs with
  | nil => cases bs with
    | nil => simp [charsLt]
    | cons b bs => simp [charsLt]
  | cons a as ih =>
    cases bs with
    | nil => simp [charsLt]
    | cons b bs =>
      rcases Nat.lt_trichotomy a.toNat b.toNat with h | h | h
      · left; simp [charsLt, h]
      · have hab : a = b := Char.eq_of_val_eq (UInt32.ext h)
        subst hab
        rcases ih bs with h1 | h1 | h1
        · left; simp [charsLt, h1]
        · right; left; simp [charsLt, h1]
        · right; right; simp [h1]
      · right; left; simp [charsLt, h]

theorem charsLt_trans (as bs cs : List Char)
    (h1 : charsLt as bs = true) (h2 : charsLt bs cs = true) :
    charsLt as cs = true := by
  induction as generalizing bs cs with
  | nil =>
    cases cs with
    | nil =>
      cases bs with
      | nil => simp [charsLt] at h1
      | cons b bs => simp [charsLt] at h2
    | cons c cs => simp [charsLt]
  | cons a as ih =>
    cases bs with
    | nil => simp [charsLt] at h1
    | cons b bs =>
      cases cs with
      | nil => simp [charsLt] at h2
      | cons c cs =>
        simp only [charsLt, Bool.or_eq_true, Bool.and_eq_true, decide_eq_true_eq] at h1 h2 ⊢
        rcases h1 with h1 | ⟨h1e, h1r⟩
        · rcases h2 with h2 | ⟨h2e, h2r⟩
          · exact Or.inl (Nat.lt_trans h1 h2)
          · exact Or.inl (h2e ▸ h1)
        · rcases h2 with h2 | ⟨h2e, h2r⟩
          · exact Or.inl (h1e ▸ h2)
          · exact Or.inr ⟨h1e.trans h2e, ih bs cs h1r h2r⟩

theorem charsLt_irrefl (as : List Char) : charsLt as as = false := by
  induction as with
  | nil => simp [charsLt]
  | cons a t ih => simp [charsLt, ih]

theorem keyLe_total (a b : String) : keyLe a b = true ∨ keyLe b a = true := by
  by_cases hab : a = b
  · left; simp [keyLe, hab]
  · rcases charsLt_total a.data b.data with h | h | h
    · left; simp [keyLe, h]
    · right; simp [keyLe, h]
    · exfalso
      apply hab
      cases a; cases b
      simp only at h
      exact congrArg String.mk h

theorem keyLe_trans (a b c : String) (h1 : keyLe a b = true) (h2 : keyLe b c = true) :
    keyLe a c = true := by
  simp only [keyLe, Bool.or_eq_true, decide_eq_true_eq] at h1 h2 ⊢
  rcases h1 with rfl | h1
  · exact h2
  · rcases h2 with rfl | h2
    · exact Or.inr h1
    · exact Or.inr (charsLt_trans _ _ _ h1 h2)

/-! ### Data model -/

/-- A stored payment record (the JSON mapping at `payments/<key>`),
with the fields the source reads; any field may be absent. -/
structure Payment where
  createdAt : Option Int := none
  processedAt : Option Int := none
  status : Option String := none
  userId : Option String := none
  amount : Option Int := none
  currency : Option String := none
  challengeId : Option String := none
deriving DecidableEq, Repr

/-- A value stored under a key of the `payments` subtree: either a JSON
mapping (a payment record) or some non-mapping value, which the source
skips via `isinstance(payment_data, dict)`. -/
inductive Entry where
  | record (p : Payment)
  | malformed
deriving DecidableEq, Repr

/-- A stored user profile (the JSON mapping at `USER_PROFILES/<key>`),
with the fields the source reads; any field may be absent. -/
structure Profile where
  userName : Option String := none
  userEmail : Option String := none
  amountWon : Option Int := none
  userJoinDate : Option Int := none
  userActiveDate : Option Int := none
deriving DecidableEq, Repr

/-- Python truthiness of the profile mapping: an empty dict is falsy. -/
def Profile.isEmptyP (p : Profile) : Bool :=
  p.userName = none && p.userEmail = none && p.amountWon = none &&
  p.userJoinDate = none && p.userActiveDate = none

/-- A value stored under a key of the `USER_PROFILES` subtree. -/
inductive PEntry where
  | profile (p : Profile)
  | malformed
deriving DecidableEq, Repr

/-- A whole subtree: the path may be absent (`ref.get()` returns `None`),
hold a non-mapping value, or hold a mapping of keys to values. -/
inductive Subtree (α : Type) where
  | missing
  | leaf
  | dict (entries : List (String × α))
deriving DecidableEq, Repr

/-- The database as seen by one rendering pass: the two subtrees of
interest plus the availability of the two read capabilities.
`indexedOk = false` means every `order_by_child` query raises (for
example: missing index configuration); `scanOk = false` means plain
`ref.get()` reads raise (for example: network failure). -/
structure Db where
  payments : Subtree Entry
  profiles : Subtree PEntry
  indexedOk : Bool
  scanOk : Bool
deriving DecidableEq, Repr

def Db.paymentList (db : Db) : List (String × Entry) :=
  match db.payments with
  | Subtree.dict es => es
  | _ => []

def Db.profileList (db : Db) : List (String × PEntry) :=
  match db.profiles with
  | Subtree.dict es => es
  | _ => []

/-- The existing document keys under `payments`. -/
def Db.paymentKeys (db : Db) : List String := db.paymentList.map Prod.fst

/-- The existing document keys under `USER_PROFILES`. -/
def Db.profileKeys (db : Db) : List String := db.profileList.map Prod.fst

/-- The `createdAt` child of a stored value, as Firebase sees it for
`order_by_child("createdAt")`: a non-mapping value has no children. -/
def createdAtOf : Entry → Option Int
  | Entry.record p => p.createdAt
  | Entry.malformed => none

def userIdOf : Entry → Option String
  | Entry.record p => p.userId
  | Entry.malformed => none

def joinDateOf : PEntry → Option Int
  | PEntry.profile p => p.userJoinDate
  | PEntry.malformed => none

/-! ### Query primitives -/

/-- Ascending Firebase child order: entries whose indexed child is
absent first (ordered by key), then numeric values ascending with the
key as tie-break. -/
def optLexLe (ka : Option Int) (sa : String) (kb : Option Int) (sb : String) : Bool :=
  match ka, kb with
  | none, none => keyLe sa sb
  | none, some _ => true
  | some _, none => false
  | some x, some y => decide (x < y) || (decide (x = y) && keyLe sa sb)

theorem optLexLe_total (ka : Option Int) (sa : String) (kb : Option Int) (sb : String) :
    optLexLe ka sa kb sb = true ∨ optLexLe kb sb ka sa = true := by
  cases ka with
  | none => cases kb with
    | none => simpa [optLexLe] using keyLe_total sa sb
    | some y => left; simp [optLexLe]
  | some x => cases kb with
    | none => right; simp [optLexLe]
    | some y =>
      rcases lt_trichotomy x y with h | h | h
      · left; simp [optLexLe, h]
      · subst h
        rcases keyLe_total sa sb with h1 | h1
        · left; simp [optLexLe, h1]
        · right; simp [optLexLe, h1]
      · right; simp [optLexLe, h]

theorem optLexLe_trans (ka : Option Int) (sa : String) (kb : Option Int) (sb : String)
    (kc : Option Int) (sc : String)
    (h1 : optLexLe ka sa kb sb = true) (h2 : optLexLe kb sb kc sc = true) :
    optLexLe ka sa kc sc = true := by
  cases ka with
  | none => cases kc with
    | none =>
      cases kb with
      | none =>
        simp only [optLexLe] at h1 h2 ⊢
        exact keyLe_trans sa sb sc h1 h2
      | some y => simp [optLexLe] at h2
    | some z => simp [optLexLe]
  | some x => cases kb with
    | none => simp [optLexLe] at h1
    | some y => cases kc with
      | none => simp [optLexLe] at h2
      | some z =>
        simp only [optLexLe, Bool.or_eq_true, Bool.and_eq_true, decide_eq_true_eq]
          at h1 h2 ⊢
        rcases h1 with h1 | ⟨rfl, h1k⟩
        · rcases h2 with h2 | ⟨rfl, h2k⟩
          · exact Or.inl (lt_trans h1 h2)
          · exact Or.inl h1
        · rcases h2 with h2 | ⟨rfl, h2k⟩
          · exact Or.inl h2
          · exact Or.inr ⟨rfl, keyLe_trans sa sb sc h1k h2k⟩

/-- Ascending Firebase order for `order_by_child("createdAt")`. -/
def qLe (a b : String × Entry) : Bool :=
  optLexLe (createdAtOf a.2) a.1 (createdAtOf b.2) b.1

theorem qLe_total (a b : String × Entry) : qLe a b = true ∨ qLe b a = true :=
  optLexLe_total _ _ _ _

theorem qLe_trans (a b c : String × Entry)
    (h1 : qLe a b = true) (h2 : qLe b c = true) : qLe a c = true :=
  optLexLe_trans _ _ _ _ _ _ h1 h2

/-- Ascending Firebase order for `order_by_child("UserJoinDate")`. -/
def qLeU (a b : String × PEntry) : Bool :=
  optLexLe (joinDateOf a.2) a.1 (joinDateOf b.2) b.1

/-- Data returned by `order_by_child("createdAt").limit_to_last(n)`,
in ascending iteration order. -/
def queryRecentWindow (db : Db) (n : Nat) : List (String × Entry) :=
  takeLast n (sortByB qLe db.paymentList)

/-- Data returned by `order_by_child("createdAt").start_at(cutoff)`,
in ascending iteration order: entries whose `createdAt` is a number
at least `cutoff`. -/
def queryStartAtWindow (db : Db) (cutoff : Int) : List (String × Entry) :=
  sortByB qLe (db.paymentList.filter (fun e =>
    match createdAtOf e.2 with
    | some c => decide (cutoff ≤ c)
    | none => false))

/-- Data returned by
`order_by_child("userId").equal_to(uid).limit_to_last(n)`. -/
def queryUserWindow (db : Db) (uid : String) (n : Nat) : List (String × Entry) :=
  takeLast n (sortByB (fun a b => keyLe a.1 b.1)
    (db.paymentList.filter (fun e => userIdOf e.2 = some uid)))

/-- Data returned by `order_by_child("UserJoinDate").limit_to_last(n)`. -/
def queryUsersWindow (db : Db) (n : Nat) : List (String × PEntry) :=
  takeLast n (sortByB qLeU db.profileList)

/-- An indexed query on `payments`: raises when the indexed-query
capability is unavailable. -/
def indexedQuery (db : Db) (w : List (String × Entry)) :
    Except Unit (List (String × Entry)) :=
  if db.indexedOk then Except.ok w else Except.error ()

def indexedQueryU (db : Db) (w : List (String × PEntry)) :
    Except Unit (List (String × PEntry)) :=
  if db.indexedOk then Except.ok w else Except.error ()

/-- A plain `ref.get()` of a whole subtree: raises when unavailable. -/
def rawGet (db : Db) (s : Subtree α) : Except Unit (Subtree α) :=
  if db.scanOk then Except.ok s else Except.error ()

/-- A Python `try: x except: h`. -/
def catchE (x : Except Unit α) (h : Unit → Except Unit α) : Except Unit α :=
  match x with
  | Except.ok a => Except.ok a
  | Except.error e => h e

/-- The value of an expression that (by the handlers in the source)
never raises; an error maps to an unreachable default. -/
def resultOf : Except Unit (List α) → List α
  | Except.ok l => l
  | Except.error _ => []

/-! ### Record shapes produced by the operations -/

/-- `{"payment_id": payment_id, **payment_data}`. -/
structure PaymentRecord where
  payment_id : String
  data : Payment
deriving DecidableEq, Repr

/-- `{"user_id": user_id, **user_data}`. -/
structure UserRecord where
  user_id : String
  data : Profile
deriving DecidableEq, Repr

/-- The record emitted by `fetch_recent_challengers` for one user: the
explicit fields plus the merged profile data. -/
structure Challenger where
  user_id : String
  payment_id : String
  latest_payment_amount : Int
  latest_payment_date : Int
  latest_challenge_id : String
  currency : String
  profileData : Profile
deriving DecidableEq, Repr

/-- The loop `for payment_id, payment_data in data.items(): if
isinstance(payment_data, dict): append({"payment_id": ..., **payment_data})`. -/
def recordsOf (l : List (String × Entry)) : List PaymentRecord :=
  l.filterMap (fun e =>
    match e.2 with
    | Entry.record p => some ⟨e.1, p⟩
    | Entry.malformed => none)

/-- Same loop with the extra `payment_data.get("status") == "completed"` check. -/
def completedRecordsOf (l : List (String × Entry)) : List PaymentRecord :=
  l.filterMap (fun e =>
    match e.2 with
    | Entry.record p => if p.status = some "completed" then some ⟨e.1, p⟩ else none
    | Entry.malformed => none)

def userRecordsOf (l : List (String × PEntry)) : List UserRecord :=
  l.filterMap (fun e =>
    match e.2 with
    | PEntry.profile p => some ⟨e.1, p⟩
    | PEntry.malformed => none)

/-- `sorted(..., key=lambda x: x.get("createdAt", 0), reverse=True)`. -/
def descLe (a b : PaymentRecord) : Bool :=
  decide (b.data.createdAt.getD 0 ≤ a.data.createdAt.getD 0)

/-- `sorted(..., key=lambda x: x.get("UserJoinDate", 0), reverse=True)`. -/
def descJoinLe (a b : UserRecord) : Bool :=
  decide (b.data.userJoinDate.getD 0 ≤ a.data.userJoinDate.getD 0)

/-! ### `fetch_recent_payments` -/

/-- The body of the first `try` of `fetch_recent_payments`. -/
def primaryRecentPayments (db : Db) (limit : Nat) : Except Unit (List PaymentRecord) :=
  match indexedQuery db (queryRecentWindow db limit) with
  | Except.error e => Except.error e
  | Except.ok pd =>
    if pd.isEmpty then Except.ok []
    else Except.ok (sortByB descLe (recordsOf pd))

/-- The body of the fallback `try` of `fetch_recent_payments`: plain
`ref.get()`, then sort in memory and truncate. Iterating `.items()` over
a non-mapping raises. -/
def fallbackRecentPayments (db : Db) (limit : Nat) : Except Unit (List PaymentRecord) :=
  match rawGet db db.payments with
  | Except.error e => Except.error e
  | Except.ok Subtree.missing => Except.ok []
  | Except.ok Subtree.leaf => Except.error ()
  | Except.ok (Subtree.dict es) =>
    if es.isEmpty then Except.ok []
    else Except.ok ((sortByB descLe (recordsOf es)).take limit)

def fetch_recent_payments (db : Db) (limit : Nat) : Except Unit (List PaymentRecord) :=
  catchE (primaryRecentPayments db limit) (fun _ =>
    catchE (fallbackRecentPayments db limit) (fun _ => Except.ok []))

def runRecentPayments (db : Db) (limit : Nat) : List PaymentRecord :=
  resultOf (fetch_recent_payments db limit)

/-! ### `fetch_valid_payments_24h`

The current time enters only through
`cutoff = int((now - timedelta(hours=24)).timestamp() * 1000)`; the
operations are modelled as functions of that cutoff. -/

def primaryValid24h (db : Db) (cutoff : Int) : Except Unit (List PaymentRecord) :=
  match indexedQuery db (queryStartAtWindow db cutoff) with
  | Except.error e => Except.error e
  | Except.ok rp =>
    if rp.isEmpty then Except.ok []
    else Except.ok (sortByB descLe (completedRecordsOf rp))

def fallbackValid24h (db : Db) (cutoff : Int) : Except Unit (List PaymentRecord) :=
  match rawGet db db.payments with
  | Except.error e => Except.error e
  | Except.ok Subtree.missing => Except.ok []
  | Except.ok Subtree.leaf => Except.error ()
  | Except.ok (Subtree.dict es) =>
    if es.isEmpty then Except.ok []
    else Except.ok (sortByB descLe (es.filterMap (fun e =>
      match e.2 with
      | Entry.record p =>
        if p.status = some "completed" ∧ cutoff ≤ p.createdAt.getD 0
        then some (⟨e.1, p⟩ : PaymentRecord) else none
      | Entry.malformed => none)))

def fetch_valid_payments_24h (db : Db) (cutoff : Int) : Except Unit (List PaymentRecord) :=
  catchE (primaryValid24h db cutoff) (fun _ =>
    catchE (fallbackValid24h db cutoff) (fun _ => Except.ok []))

def runValid24h (db : Db) (cutoff : Int) : List PaymentRecord :=
  resultOf (fetch_valid_payments_24h db cutoff)

/-! ### `fetch_user_payments` (no fallback query) -/

def primaryUserPayments (db : Db) (uid : String) (limit : Nat) :
    Except Unit (List PaymentRecord) :=
  match indexedQuery db (queryUserWindow db uid limit) with
  | Except.error e => Except.error e
  | Except.ok up =>
    if up.isEmpty then Except.ok []
    else Except.ok (sortByB descLe (recordsOf up))

def fetch_user_payments (db : Db) (uid : String) (limit : Nat) :
    Except Unit (List PaymentRecord) :=
  catchE (primaryUserPayments db uid limit) (fun _ => Except.ok [])

def runUserPayments (db : Db) (uid : String) (limit : Nat) : List PaymentRecord :=
  resultOf (fetch_user_payments db uid limit)

/-! ### `fetch_user_profile` -/

/-- `ref(f"USER_PROFILES/{user_id}").get()`: the stored value at that
key, or `none` when absent (also when the whole subtree is absent or is
not a mapping, in which case the path has no such child). -/
def profileAt (db : Db) (u : String) : Option PEntry :=
  match db.profiles with
  | Subtree.dict es =>
    match es.find? (fun e => e.1 = u) with
    | some e => some e.2
    | none => none
  | _ => none

/-- `fetch_user_profile` catches every exception internally and returns
`None` for it; a non-mapping or falsy (empty) stored value also gives
`None`. -/
def fetch_user_profile (db : Db) (u : String) : Option Profile :=
  if db.scanOk then
    match profileAt db u with
    | some (PEntry.profile p) => if p.isEmptyP then none else some p
    | _ => none
  else none

/-! ### `fetch_latest_users` -/

def primaryLatestUsers (db : Db) (limit : Nat) : Except Unit (List UserRecord) :=
  match indexedQueryU db (queryUsersWindow db limit) with
  | Except.error e => Except.error e
  | Except.ok ud =>
    if ud.isEmpty then Except.ok []
    else Except.ok (sortByB descJoinLe (userRecordsOf ud))

def fallbackLatestUsers (db : Db) (limit : Nat) : Except Unit (List UserRecord) :=
  match rawGet db db.profiles with
  | Except.error e => Except.error e
  | Except.ok Subtree.missing => Except.ok []
  | Except.ok Subtree.leaf => Except.error ()
  | Except.ok (Subtree.dict es) =>
    if es.isEmpty then Except.ok []
    else Except.ok ((sortByB descJoinLe (userRecordsOf es)).take limit)

def fetch_latest_users (db : Db) (limit : Nat) : Except Unit (List UserRecord) :=
  catchE (primaryLatestUsers db limit) (fun _ =>
    catchE (fallbackLatestUsers db limit) (fun _ => Except.ok []))

def runLatestUsers (db : Db) (limit : Nat) : List UserRecord :=
  resultOf (fetch_latest_users db limit)

/-! ### `fetch_recent_challengers` -/

/-- `user_payment_map`: a Python dict from user id to the retained
payment (key and record), in insertion order. -/
abbrev UPMap := List (String × (String × Payment))

/-- First-match association lookup (`user_id in map` / `map[user_id]`). -/
def lookupA (u : String) : UPMap → Option (String × Payment)
  | [] => none
  | (u', v) :: t => if u' = u then some v else lookupA u t

/-- Python dict assignment: an existing key keeps its position, a new
key is appended at the end. -/
def upsertA (u : String) (v : String × Payment) : UPMap → UPMap
  | [] => [(u, v)]
  | (u', v') :: t => if u' = u then (u, v) :: t else (u', v') :: upsertA u v t

/-- One iteration of the dedup loop of `fetch_recent_challengers`:
skip non-mappings, skip non-completed payments, skip falsy user ids,
and keep the payment with the strictly larger `createdAt` (so on a tie
the record already in the map survives). -/
def challengerStep (m : UPMap) (e : String × Entry) : UPMap :=
  match e.2 with
  | Entry.malformed => m
  | Entry.record p =>
    if p.status = some "completed" then
      match p.userId with
      | some u =>
        if u = "" then m
        else
          match lookupA u m with
          | none => upsertA u (e.1, p) m
          | some v =>
            if v.2.createdAt.getD 0 < p.createdAt.getD 0
            then upsertA u (e.1, p) m else m
      | none => m
    else m

def buildMap (l : List (String × Entry)) : UPMap := l.foldl challengerStep []

/-- `sorted(user_payment_map.items(), key=lambda x: x[1]["createdAt"], reverse=True)`. -/
def upLe (a b : String × (String × Payment)) : Bool :=
  decide (b.2.2.createdAt.getD 0 ≤ a.2.2.createdAt.getD 0)

/-- The record built for one user of the top list, when the profile
join succeeds; the dict stored in `user_payment_map` carries
`payment_data.get("amount", 0)`, `payment_data.get("currency", "usd")`
and `payment_data.get("challengeId", "")`. -/
def challengerOf (db : Db) (u : String) (v : String × Payment) : Option Challenger :=
  match fetch_user_profile db u with
  | some prof => some
    { user_id := u
      payment_id := v.1
      latest_payment_amount := v.2.amount.getD 0
      latest_payment_date := v.2.createdAt.getD 0
      latest_challenge_id := v.2.challengeId.getD ""
      currency := v.2.currency.getD "usd"
      profileData := prof }
  | none => none

def primaryChallengers (db : Db) (limit : Nat) : Except Unit (List Challenger) :=
  match indexedQuery db (queryRecentWindow db 100) with
  | Except.error e => Except.error e
  | Except.ok pd =>
    if pd.isEmpty then Except.ok []
    else Except.ok
      (((sortByB upLe (buildMap pd)).take limit).filterMap
        (fun x => challengerOf db x.1 x.2))

def fetch_recent_challengers (db : Db) (limit : Nat) : Except Unit (List Challenger) :=
  catchE (primaryChallengers db limit) (fun _ => Except.ok [])

def runChallengers (db : Db) (limit : Nat) : List Challenger :=
  resultOf (fetch_recent_challengers db limit)

/-! ### `calculate_payment_stats`

The input is a list of payment-shaped records; a DataFrame column
exists when at least one record carries the field, `sum`/`mean` skip
absent values, `len(df)` counts all records, and `value_counts` is a
frequency table of the present values (its ordering is irrelevant to
the claims and is abstracted as first-occurrence order). -/

def valueCounts (xs : List String) : List (String × Nat) :=
  xs.dedup.map (fun v => (v, xs.count v))

/-- The dict returned by `calculate_payment_stats`; an absent key is
`none`, and `{}` is the structure with every field `none`. -/
structure Stats where
  total_amount : Option Int := none
  average_amount : Option ℚ := none
  count : Option Nat := none
  status_breakdown : Option (List (String × Nat)) := none
  currency_breakdown : Option (List (String × Nat)) := none
deriving DecidableEq, Repr

def calculate_payment_stats (l : List PaymentRecord) : Stats :=
  if l.isEmpty then {}
  else
    let amounts := l.filterMap (fun r => r.data.amount)
    let s1 : Stats :=
      if l.any (fun r => r.data.amount.isSome) then
        { total_amount := some amounts.sum
          average_amount := some ((amounts.sum : ℚ) / (amounts.length : ℚ))
          count := some l.length }
      else {}
    let statusTable := valueCounts (l.filterMap (fun r => r.data.status))
    let currencyTable := valueCounts (l.filterMap (fun r => r.data.currency))
    let s2 : Stats :=
      if l.any (fun r => r.data.status.isSome) then
        { s1 with status_breakdown := some statusTable }
      else s1
    if l.any (fun r => r.data.currency.isSome) then
      { s2 with currency_breakdown := some currencyTable }
    else s2

/-! ### `format_timestamp`

The input of `format_timestamp` is a pandas cell value: absent
(`None`/`NaN`), a number, or some other stored value such as a string.
`pd.notna` is false exactly on `None`/`NaN`; `timestamp != 0` is false
exactly on the number `0`. Inside the `try`, three failures can arise:
dividing a non-number by 1000 raises `TypeError`;
`datetime.fromtimestamp(timestamp/1000)` raises `ValueError` when the
local date falls outside the `datetime` years 1..9999 (the check
applies BEFORE the 5-hour shift); and `dt + timedelta(hours=5)` raises
`OverflowError` when the shifted instant exceeds `datetime.max`. The
`except (ValueError, TypeError)` clause catches the first two and
returns "Invalid date"; the `OverflowError` is NOT caught and
propagates to the caller.

`datetime.fromtimestamp` produces the host-local wall-clock time; the
host zone is modelled as a fixed offset `tz` in seconds from UTC, and
the calendar as the proleptic Gregorian calendar (days-to-civil
conversion below), with `%H:%M:%S %Y-%m-%d` zero-padding every field.
Year and second boundaries lie on whole seconds, so truncating the
sub-second part of `timestamp/1000` is exact for both the range checks
and the formatted string. -/

instance {e a : Type} [DecidableEq e] [DecidableEq a] : DecidableEq (Except e a) :=
  fun x y =>
    match x, y with
    | Except.ok u, Except.ok v =>
      if h : u = v then isTrue (by rw [h]) else isFalse (fun hc => h (Except.ok.inj hc))
    | Except.error u, Except.error v =>
      if h : u = v then isTrue (by rw [h]) else isFalse (fun hc => h (Except.error.inj hc))
    | Except.ok _, Except.error _ => isFalse (fun hc => Except.noConfusion hc)
    | Except.error _, Except.ok _ => isFalse (fun hc => Except.noConfusion hc)

theorem descLe_total (a b : PaymentRecord) : descLe a b = true ∨ descLe b a = true := by
  simp only [descLe, decide_eq_true_eq]
  omega

theorem descLe_trans (a b c : PaymentRecord)
    (h1 : descLe a b = true) (h2 : descLe b c = true) : descLe a c = true := by
  simp only [descLe, decide_eq_true_eq] at h1 h2 ⊢
  omega

theorem descJoinLe_total (a b : UserRecord) : descJoinLe a b = true ∨ descJoinLe b a = true := by
  simp only [descJoinLe, decide_eq_true_eq]
  omega

theorem descJoinLe_trans (a b c : UserRecord)
    (h1 : descJoinLe a b = true) (h2 : descJoinLe b c = true) : descJoinLe a c = true := by
  simp only [descJoinLe, decide_eq_true_eq] at h1 h2 ⊢
  omega

theorem upLe_total (a b : String × (String × Payment)) : upLe a b = true ∨ upLe b a = true := by
  simp only [upLe, decide_eq_true_eq]
  omega

theorem upLe_trans (a b c : String × (String × Payment))
    (h1 : upLe a b = true) (h2 : upLe b c = true) : upLe a c = true := by
  simp only [upLe, decide_eq_true_eq] at h1 h2 ⊢
  omega

theorem if_isEmpty_collapse {α β : Type} (l : List α) (f : List α → List β)
    (hf : f [] = []) : (if l.isEmpty then [] else f l) = f l := by
  split
  · rename_i h
    rw [List.isEmpty_iff.mp h, hf]
  · rfl


theorem resultOf_catchE_ok {α : Type} (l : List α) (h : Unit → Except Unit (List α)) :
    resultOf (catchE (Except.ok l) h) = l := rfl

theorem runRecentPayments_eq (db : Db) (limit : Nat) :
    runRecentPayments db limit =
      if db.indexedOk then sortByB descLe (recordsOf (queryRecentWindow db limit))
      else if db.scanOk then
        (match db.payments with
         | Subtree.dict es => (sortByB descLe (recordsOf es)).take limit
         | _ => [])
      else [] := by
  cases hIdx : db.indexedOk with
  | true =>
    simp only [runRecentPayments, fetch_recent_payments, primaryRecentPayments,
      indexedQuery, hIdx, if_true]
    split
    · rename_i h
      rw [List.isEmpty_iff.mp h]
      rfl
    · rfl
  | false =>
    cases hScan : db.scanOk with
    | false =>
      cases hpay : db.payments <;>
        simp [runRecentPayments, fetch_recent_payments, primaryRecentPayments,
          fallbackRecentPayments, indexedQuery, rawGet, hIdx, hScan, hpay,
          catchE, resultOf]
    | true =>
      cases hpay : db.payments with
      | missing =>
        simp [runRecentPayments, fetch_recent_payments, primaryRecentPayments,
          fallbackRecentPayments, indexedQuery, rawGet, hIdx, hScan, hpay,
          catchE, resultOf]
      | leaf =>
        simp [runRecentPayments, fetch_recent_payments, primaryRecentPayments,
          fallbackRecentPayments, indexedQuery, rawGet, hIdx, hScan, hpay,
          catchE, resultOf]
      | dict es =>
        by_cases he : es.isEmpty = true
        · have he' := List.isEmpty_iff.mp he
          subst he'
          simp [runRecentPayments, fetch_recent_payments, primaryRecentPayments,
            fallbackRecentPayments, indexedQuery, rawGet, hIdx, hScan, hpay,
            catchE, resultOf, recordsOf, sortByB]
        · simp [runRecentPayments, fetch_recent_payments, primaryRecentPayments,
            fallbackRecentPayments, indexedQuery, rawGet, hIdx, hScan, hpay, he,
            catchE, resultOf]

theorem runValid24h_eq (db : Db) (cutoff : Int) :
    runValid24h db cutoff =
      if db.indexedOk then
        sortByB descLe (completedRecordsOf (queryStartAtWindow db cutoff))
      else if db.scanOk then
        (match db.payments with
         | Subtree.dict es =>
            sortByB descLe (es.filterMap (fun e =>
              match e.2 with
              | Entry.record p =>
                if p.status = some "completed" ∧ cutoff ≤ p.createdAt.getD 0
                then some (⟨e.1, p⟩ : PaymentRecord) else none
              | Entry.malformed => none))
         | _ => [])
      else [] := by
  cases hIdx : db.indexedOk with
  | true =>
    simp only [runValid24h, fetch_valid_payments_24h, primaryValid24h,
      indexedQuery, hIdx, if_true]
    split
    · rename_i h
      rw [List.isEmpty_iff.mp h]
      rfl
    · rfl
  | false =>
    cases hScan : db.scanOk with
    | false =>
      cases hpay : db.payments <;>
        simp [runValid24h, fetch_valid_payments_24h, primaryValid24h,
          fallbackValid24h, indexedQuery, rawGet, hIdx, hScan, hpay,
          catchE, resultOf]
    | true =>
      cases hpay : db.payments with
      | missing =>
        simp [runValid24h, fetch_valid_payments_24h, primaryValid24h,
          fallbackValid24h, indexedQuery, rawGet, hIdx, hScan, hpay,
          catchE, resultOf]
      | leaf =>
        simp [runValid24h, fetch_valid_payments_24h, primaryValid24h,
          fallbackValid24h, indexedQuery, rawGet, hIdx, hScan, hpay,
          catchE, resultOf]
      | dict es =>
        by_cases he : es.isEmpty = true
        · have he' := List.isEmpty_iff.mp he
          subst he'
          simp [runValid24h, fetch_valid_payments_24h, primaryValid24h,
            fallbackValid24h, indexedQuery, rawGet, hIdx, hScan, hpay,
            catchE, resultOf, sortByB]
        · simp [runValid24h, fetch_valid_payments_24h, primaryValid24h,
            fallbackValid24h, indexedQuery, rawGet, hIdx, hScan, hpay, he,
            catchE, resultOf]

theorem runUserPayments_eq (db : Db) (uid : String) (limit : Nat) :
    runUserPayments db uid limit =
      if db.indexedOk then sortByB descLe (recordsOf (queryUserWindow db uid limit))
      else [] := by
  cases hIdx : db.indexedOk with
  | true =>
    simp only [runUserPayments, fetch_user_payments, primaryUserPayments,
      indexedQuery, hIdx, if_true]
    split
    · rename_i h
      rw [List.isEmpty_iff.mp h]
      rfl
    · rfl
  | false =>
    simp [runUserPayments, fetch_user_payments, primaryUserPayments,
      indexedQuery, hIdx, catchE, resultOf]

theorem runLatestUsers_eq (db : Db) (limit : Nat) :
    runLatestUsers db limit =
      if db.indexedOk then sortByB descJoinLe (userRecordsOf (queryUsersWindow db limit))
      else if db.scanOk then
        (match db.profiles with
         | Subtree.dict es => (sortByB descJoinLe (userRecordsOf es)).take limit
         | _ => [])
      else [] := by
  cases hIdx : db.indexedOk with
  | true =>
    simp only [runLatestUsers, fetch_latest_users, primaryLatestUsers,
      indexedQueryU, hIdx, if_true]
    split
    · rename_i h
      rw [List.isEmpty_iff.mp h]
      rfl
    · rfl
  | false =>
    cases hScan : db.scanOk with
    | false =>
      cases hprof : db.profiles <;>
        simp [runLatestUsers, fetch_latest_users, primaryLatestUsers,
          fallbackLatestUsers, indexedQueryU, rawGet, hIdx, hScan, hprof,
          catchE, resultOf]
    | true =>
      cases hprof : db.profiles with
      | missing =>
        simp [runLatestUsers, fetch_latest_users, primaryLatestUsers,
          fallbackLatestUsers, indexedQueryU, rawGet, hIdx, hScan, hprof,
          catchE, resultOf]
      | leaf =>
        simp [runLatestUsers, fetch_latest_users, primaryLatestUsers,
          fallbackLatestUsers, indexedQueryU, rawGet, hIdx, hScan, hprof,
          catchE, resultOf]
      | dict es =>
        by_cases he : es.isEmpty = true
        · have he' := List.isEmpty_iff.mp he
          subst he'
          simp [runLatestUsers, fetch_latest_users, primaryLatestUsers,
            fallbackLatestUsers, indexedQueryU, rawGet, hIdx, hScan, hprof,
            catchE, resultOf, userRecordsOf, sortByB]
        · simp [runLatestUsers, fetch_latest_users, primaryLatestUsers,
            fallbackLatestUsers, indexedQueryU, rawGet, hIdx, hScan, hprof, he,
            catchE, resultOf]

theorem runChallengers_eq (db : Db) (limit : Nat) :
    runChallengers db limit =
      if db.indexedOk then
        ((sortByB upLe (buildMap (queryRecentWindow db 100))).take limit).filterMap
          (fun x => challengerOf db x.1 x.2)
      else [] := by
  cases hIdx : db.indexedOk with
  | true =>
    simp only [runChallengers, fetch_recent_challengers, primaryChallengers,
      indexedQuery, hIdx, if_true]
    split
    · rename_i h
      rw [List.isEmpty_iff.mp h]
      simp [resultOf, catchE, buildMap, sortByB]
    · rfl
  | false =>
    simp [runChallengers, fetch_recent_challengers, primaryChallengers,
      indexedQuery, hIdx, catchE, resultOf]

/-! ### Facts about the challenger dedup map -/

def keysOf (m : UPMap) : List String := m.map Prod.fst

theorem mem_upsertA {u : String} {v : String × Payment} {x : String × (String × Payment)} :
    ∀ {m : UPMap}, x ∈ upsertA u v m → x = (u, v) ∨ x ∈ m
  | [], h => by simpa [upsertA] using h
  | (u', v') :: t, h => by
    by_cases he : u' = u
    · rw [upsertA, if_pos he] at h
      rcases List.mem_cons.mp h with rfl | hx
      · exact Or.inl rfl
      · exact Or.inr (List.mem_cons_of_mem _ hx)
    · rw [upsertA, if_neg he] at h
      rcases List.mem_cons.mp h with rfl | hx
      · exact Or.inr (List.mem_cons_self _ _)
      · rcases mem_upsertA hx with h1 | h1
        · exact Or.inl h1
        · exact Or.inr (List.mem_cons_of_mem _ h1)

theorem lookupA_upsertA_same (u : String) (v : String × Payment) :
    ∀ (m : UPMap), lookupA u (upsertA u v m) = some v
  | [] => by simp [upsertA, lookupA]
  | (u', v') :: t => by
    by_cases he : u' = u
    · rw [upsertA, if_pos he]
      simp [lookupA]
    · rw [upsertA, if_neg he]
      rw [lookupA, if_neg he]
      exact lookupA_upsertA_same u v t

theorem lookupA_upsertA_ne (u w : String) (v : String × Payment) (hne : u ≠ w) :
    ∀ (m : UPMap), lookupA w (upsertA u v m) = lookupA w m
  | [] => by simp [upsertA, lookupA, hne]
  | (u', v') :: t => by
    by_cases he : u' = u
    · subst he
      rw [upsertA, if_pos rfl]
      rw [lookupA, lookupA, if_neg hne, if_neg hne]
    · rw [upsertA, if_neg he]
      rw [lookupA, lookupA]
      by_cases hw : u' = w
      · rw [if_pos hw, if_pos hw]
      · rw [if_neg hw, if_neg hw]
        exact lookupA_upsertA_ne u w v hne t

theorem keysOf_upsertA_subset (u : String) (v : String × Payment) :
    ∀ (m : UPMap), ∀ w ∈ keysOf (upsertA u v m), w = u ∨ w ∈ keysOf m
  | [] => by simp [upsertA, keysOf]
  | (u', v') :: t => by
    intro w hw
    by_cases he : u' = u
    · rw [upsertA, if_pos he] at hw
      simp only [keysOf, List.map_cons, List.mem_cons] at hw ⊢
      rcases hw with rfl | hw
      · exact Or.inl rfl
      · exact Or.inr (Or.inr hw)
    · rw [upsertA, if_neg he] at hw
      simp only [keysOf, List.map_cons, List.mem_cons] at hw ⊢
      rcases hw with rfl | hw
      · exact Or.inr (Or.inl rfl)
      · rcases keysOf_upsertA_subset u v t w hw with h1 | h1
        · exact Or.inl h1
        · exact Or.inr (Or.inr h1)

theorem nodup_keysOf_upsertA (u : String) (v : String × Payment) :
    ∀ (m : UPMap), (keysOf m).Nodup → (keysOf (upsertA u v m)).Nodup
  | [], _ => by simp [upsertA, keysOf]
  | (u', v') :: t, hnd => by
    have hnd' : (u' :: keysOf t).Nodup := hnd
    rcases List.nodup_cons.mp hnd' with ⟨hu', ht⟩
    by_cases he : u' = u
    · subst he
      rw [upsertA, if_pos rfl]
      exact List.nodup_cons.mpr ⟨hu', ht⟩
    · rw [upsertA, if_neg he]
      refine List.nodup_cons.mpr ⟨?_, nodup_keysOf_upsertA u v t ht⟩
      intro hmem
      rcases keysOf_upsertA_subset u v t u' hmem with h1 | h1
      · exact he h1
      · exact hu' h1

/-! Equational presentation of one dedup iteration. -/

theorem challengerStep_malformed (m : UPMap) (k : String) :
    challengerStep m (k, Entry.malformed) = m := rfl

theorem challengerStep_not_completed (m : UPMap) (k : String) (p : Payment)
    (h : ¬ p.status = some "completed") :
    challengerStep m (k, Entry.record p) = m := by
  simp [challengerStep, h]

theorem challengerStep_no_user (m : UPMap) (k : String) (p : Payment)
    (h1 : p.status = some "completed") (h2 : p.userId = none) :
    challengerStep m (k, Entry.record p) = m := by
  simp [challengerStep, h1, h2]

theorem challengerStep_empty_user (m : UPMap) (k : String) (p : Payment)
    (h1 : p.status = some "completed") (h2 : p.userId = some "") :
    challengerStep m (k, Entry.record p) = m := by
  simp [challengerStep, h1, h2]

theorem challengerStep_new (m : UPMap) (k : String) (p : Payment) (u : String)
    (h1 : p.status = some "completed") (h2 : p.userId = some u) (h3 : u ≠ "")
    (h4 : lookupA u m = none) :
    challengerStep m (k, Entry.record p) = upsertA u (k, p) m := by
  simp [challengerStep, h1, h2, h3, h4]

theorem challengerStep_found (m : UPMap) (k : String) (p : Payment) (u : String)
    (v : String × Payment)
    (h1 : p.status = some "completed") (h2 : p.userId = some u) (h3 : u ≠ "")
    (h4 : lookupA u m = some v) :
    challengerStep m (k, Entry.record p) =
      (if v.2.createdAt.getD 0 < p.createdAt.getD 0 then upsertA u (k, p) m else m) := by
  simp [challengerStep, h1, h2, h3, h4]

theorem mem_challengerStep {m : UPMap} {e : String × Entry} {x : String × (String × Payment)}
    (h : x ∈ challengerStep m e) :
    x ∈ m ∨ (x.1 ≠ "" ∧ x.2.2.userId = some x.1 ∧ x.2.2.status = some "completed" ∧
             (x.2.1, Entry.record x.2.2) = e) := by
  obtain ⟨k, en⟩ := e
  cases en with
  | malformed => exact Or.inl h
  | record p =>
    by_cases hst : p.status = some "completed"
    · cases hu : p.userId with
      | none =>
        rw [challengerStep_no_user m k p hst hu] at h
        exact Or.inl h
      | some u =>
        by_cases hue : u = ""
        · subst hue
          rw [challengerStep_empty_user m k p hst hu] at h
          exact Or.inl h
        · cases hl : lookupA u m with
          | none =>
            rw [challengerStep_new m k p u hst hu hue hl] at h
            rcases mem_upsertA h with rfl | hx
            · exact Or.inr ⟨hue, by simpa using hu, hst, rfl⟩
            · exact Or.inl hx
          | some v =>
            rw [challengerStep_found m k p u v hst hu hue hl] at h
            by_cases hcmp : v.2.createdAt.getD 0 < p.createdAt.getD 0
            · rw [if_pos hcmp] at h
              rcases mem_upsertA h with rfl | hx
              · exact Or.inr ⟨hue, by simpa using hu, hst, rfl⟩
              · exact Or.inl hx
            · rw [if_neg hcmp] at h
              exact Or.inl h
    · rw [challengerStep_not_completed m k p hst] at h
      exact Or.inl h

theorem mem_foldl_challengerStep :
    ∀ (l : List (String × Entry)) (m : UPMap) (x : String × (String × Payment)),
      x ∈ l.foldl challengerStep m →
      x ∈ m ∨ (x.1 ≠ "" ∧ x.2.2.userId = some x.1 ∧ x.2.2.status = some "completed" ∧
               (x.2.1, Entry.record x.2.2) ∈ l)
  | [], _, _, h => Or.inl h
  | e :: t, m, x, h => by
    rw [List.foldl_cons] at h
    rcases mem_foldl_challengerStep t (challengerStep m e) x h with h1 | h1
    · rcases mem_challengerStep h1 with h2 | h2
      · exact Or.inl h2
      · exact Or.inr ⟨h2.1, h2.2.1, h2.2.2.1, by rw [h2.2.2.2]; exact List.mem_cons_self _ _⟩
    · exact Or.inr ⟨h1.1, h1.2.1, h1.2.2.1, List.mem_cons_of_mem _ h1.2.2.2⟩

theorem mem_buildMap {l : List (String × Entry)} {x : String × (String × Payment)}
    (h : x ∈ buildMap l) :
    x.1 ≠ "" ∧ x.2.2.userId = some x.1 ∧ x.2.2.status = some "completed" ∧
    (x.2.1, Entry.record x.2.2) ∈ l := by
  rcases mem_foldl_challengerStep l [] x h with h1 | h1
  · cases h1
  · exact h1

theorem nodup_keysOf_challengerStep (m : UPMap) (e : String × Entry)
    (hnd : (keysOf m).Nodup) : (keysOf (challengerStep m e)).Nodup := by
  obtain ⟨k, en⟩ := e
  cases en with
  | malformed => exact hnd
  | record p =>
    by_cases hst : p.status = some "completed"
    · cases hu : p.userId with
      | none => rw [challengerStep_no_user m k p hst hu]; exact hnd
      | some u =>
        by_cases hue : u = ""
        · subst hue
          rw [challengerStep_empty_user m k p hst hu]
          exact hnd
        · cases hl : lookupA u m with
          | none =>
            rw [challengerStep_new m k p u hst hu hue hl]
            exact nodup_keysOf_upsertA u (k, p) m hnd
          | some v =>
            rw [challengerStep_found m k p u v hst hu hue hl]
            by_cases hcmp : v.2.createdAt.getD 0 < p.createdAt.getD 0
            · rw [if_pos hcmp]
              exact nodup_keysOf_upsertA u (k, p) m hnd
            · rw [if_neg hcmp]
              exact hnd
    · rw [challengerStep_not_completed m k p hst]
      exact hnd

theorem nodup_keysOf_foldl :
    ∀ (l : List (String × Entry)) (m : UPMap), (keysOf m).Nodup →
      (keysOf (l.foldl challengerStep m)).Nodup
  | [], _, hnd => hnd
  | e :: t, m, hnd => by
    rw [List.foldl_cons]
    exact nodup_keysOf_foldl t (challengerStep m e) (nodup_keysOf_challengerStep m e hnd)

theorem nodup_keysOf_buildMap (l : List (String × Entry)) : (keysOf (buildMap l)).Nodup :=
  nodup_keysOf_foldl l [] (by simp [keysOf])

theorem lookupA_eq_of_mem :
    ∀ {m : UPMap}, (keysOf m).Nodup → ∀ {x : String × (String × Payment)}, x ∈ m →
      lookupA x.1 m = some x.2
  | [], _, _, hx => by cases hx
  | (u', v') :: t, hnd, x, hx => by
    have hnd' : (u' :: keysOf t).Nodup := hnd
    rcases List.nodup_cons.mp hnd' with ⟨hu', ht⟩
    rcases List.mem_cons.mp hx with rfl | hx
    · rw [lookupA, if_pos rfl]
    · rw [lookupA]
      have hxk : x.1 ∈ keysOf t := List.mem_map_of_mem _ hx
      rw [if_neg (fun he => hu' (by rw [he]; exact hxk))]
      exact lookupA_eq_of_mem ht hx

theorem pair_eq_of_nodup_keys {α : Type} :
    ∀ {l : List (String × α)}, (l.map Prod.fst).Nodup →
      ∀ {k : String} {a b : α}, (k, a) ∈ l → (k, b) ∈ l → a = b
  | [], _, _, _, _, ha, _ => by cases ha
  | (u', v') :: t, hnd, k, a, b, ha, hb => by
    have hnd' : (u' :: t.map Prod.fst).Nodup := hnd
    rcases List.nodup_cons.mp hnd' with ⟨he, ht⟩
    rcases List.mem_cons.mp ha with ha1 | ha1
    · rcases List.mem_cons.mp hb with hb1 | hb1
      · have hab : ((k, a) : String × α) = (k, b) := ha1.trans hb1.symm
        exact congrArg Prod.snd hab
      · have hk : u' = k := (congrArg Prod.fst ha1).symm
        have hmem : k ∈ t.map Prod.fst := List.mem_map_of_mem Prod.fst hb1
        exact absurd (by rw [hk]; exact hmem) he
    · rcases List.mem_cons.mp hb with hb1 | hb1
      · have hk : u' = k := (congrArg Prod.fst hb1).symm
        have hmem : k ∈ t.map Prod.fst := List.mem_map_of_mem Prod.fst ha1
        exact absurd (by rw [hk]; exact hmem) he
      · exact pair_eq_of_nodup_keys ht ha1 hb1

/-! ### The retained payment per user: a left fold of a "keep the
strictly newer one" rule, in iteration order -/

/-- The rule applied per candidate: replace the current retained
payment only when the candidate has a strictly larger `createdAt`. -/
def better (cur : Option (String × Payment)) (c : String × Payment) :
    Option (String × Payment) :=
  match cur with
  | none => some c
  | some v => if v.2.createdAt.getD 0 < c.2.createdAt.getD 0 then some c else some v

def pickBest (cur : Option (String × Payment)) :
    List (String × Payment) → Option (String × Payment)
  | [] => cur
  | c :: t => pickBest (better cur c) t

/-- The candidates for user `u` among the iterated entries: completed
payment records carrying exactly that user id, in iteration order. -/
def uCands (u : String) (l : List (String × Entry)) : List (String × Payment) :=
  l.filterMap (fun e =>
    match e.2 with
    | Entry.record p =>
      if p.status = some "completed" ∧ p.userId = some u then some (e.1, p) else none
    | Entry.malformed => none)

theorem lookupA_challengerStep (u : String) (hu : u ≠ "") (m : UPMap)
    (e : String × Entry) :
    lookupA u (challengerStep m e) =
      (match (match e.2 with
              | Entry.record p =>
                if p.status = some "completed" ∧ p.userId = some u
                then some (e.1, p) else none
              | Entry.malformed => none) with
       | none => lookupA u m
       | some c => better (lookupA u m) c) := by
  obtain ⟨k, en⟩ := e
  cases en with
  | malformed => rfl
  | record p =>
    by_cases hst : p.status = some "completed"
    · cases hup : p.userId with
      | none =>
        rw [challengerStep_no_user m k p hst hup]
        simp [hst, hup]
      | some w =>
        by_cases hwu : w = u
        · subst hwu
          have hww : w ≠ "" := hu
          cases hl : lookupA w m with
          | none =>
            rw [challengerStep_new m k p w hst hup hww hl]
            simp [hst, hup, hl, better, lookupA_upsertA_same]
          | some v =>
            rw [challengerStep_found m k p w v hst hup hww hl]
            by_cases hcmp : v.2.createdAt.getD 0 < p.createdAt.getD 0
            · rw [if_pos hcmp]
              simp [hst, hup, hl, better, hcmp, lookupA_upsertA_same]
            · rw [if_neg hcmp]
              simp [hst, hup, hl, better, hcmp]
        · have hcand : (if p.status = some "completed" ∧ p.userId = some u
              then some ((k, p) : String × Payment) else none) = none := by
            simp [hup, hwu]
          dsimp only
          rw [hcand]
          by_cases hwe : w = ""
          · subst hwe
            rw [challengerStep_empty_user m k p hst hup]
          · cases hl : lookupA w m with
            | none =>
              rw [challengerStep_new m k p w hst hup hwe hl]
              exact lookupA_upsertA_ne w u (k, p) hwu m
            | some v =>
              rw [challengerStep_found m k p w v hst hup hwe hl]
              by_cases hcmp : v.2.createdAt.getD 0 < p.createdAt.getD 0
              · rw [if_pos hcmp]
                exact lookupA_upsertA_ne w u (k, p) hwu m
              · rw [if_neg hcmp]
    · rw [challengerStep_not_completed m k p hst]
      simp [hst]

theorem lookupA_foldl_eq (u : String) (hu : u ≠ "") :
    ∀ (l : List (String × Entry)) (m : UPMap),
      lookupA u (l.foldl challengerStep m) = pickBest (lookupA u m) (uCands u l)
  | [], m => rfl
  | e :: t, m => by
    rw [List.foldl_cons, lookupA_foldl_eq u hu t (challengerStep m e),
      lookupA_challengerStep u hu m e]
    simp only [uCands, List.filterMap_cons]
    cases hc : (match e.2 with
      | Entry.record p =>
        if p.status = some "completed" ∧ p.userId = some u
        then some ((e.1, p) : String × Payment) else none
      | Entry.malformed => none) with
    | none => rfl
    | some c => rfl

theorem lookupA_buildMap_eq (u : String) (hu : u ≠ "") (l : List (String × Entry)) :
    lookupA u (buildMap l) = pickBest none (uCands u l) :=
  lookupA_foldl_eq u hu l []

theorem better_le (cur : Option (String × Payment)) (c : String × Payment) :
    ∃ x, better cur c = some x ∧ c.2.createdAt.getD 0 ≤ x.2.createdAt.getD 0 ∧
      ∀ v, cur = some v → v.2.createdAt.getD 0 ≤ x.2.createdAt.getD 0 := by
  cases cur with
  | none => exact ⟨c, rfl, le_refl _, by intro v hv; cases hv⟩
  | some v =>
    by_cases h : v.2.createdAt.getD 0 < c.2.createdAt.getD 0
    · refine ⟨c, by simp [better, h], le_refl _, ?_⟩
      intro w hw
      cases hw
      omega
    · refine ⟨v, by simp [better, h], by omega, ?_⟩
      intro w hw
      cases hw
      exact le_refl _

theorem pickBest_le :
    ∀ (t : List (String × Payment)) (cur : Option (String × Payment))
      (x : String × Payment), pickBest cur t = some x →
      (∀ c ∈ t, c.2.createdAt.getD 0 ≤ x.2.createdAt.getD 0) ∧
      (∀ v, cur = some v → v.2.createdAt.getD 0 ≤ x.2.createdAt.getD 0)
  | [], cur, x, h => by
    constructor
    · intro c hc
      cases hc
    · intro v hv
      rw [pickBest] at h
      rw [hv] at h
      cases h
      exact le_refl _
  | c :: t, cur, x, h => by
    rw [pickBest] at h
    have ih := pickBest_le t (better cur c) x h
    rcases better_le cur c with ⟨y, hy, hcy, hvy⟩
    have hyx : y.2.createdAt.getD 0 ≤ x.2.createdAt.getD 0 := ih.2 y hy
    refine ⟨?_, ?_⟩
    · intro d hd
      rcases List.mem_cons.mp hd with rfl | hd
      · exact le_trans hcy hyx
      · exact ih.1 d hd
    · intro v hv
      exact le_trans (hvy v hv) hyx

/-- On a tie of `createdAt`, the candidate already retained survives:
with exactly two candidates of equal timestamp, the first is picked. -/
theorem pickBest_pair_tie (c1 c2 : String × Payment)
    (h : c2.2.createdAt.getD 0 = c1.2.createdAt.getD 0) :
    pickBest none [c1, c2] = some c1 := by
  simp [pickBest, better, h]

/-! ### Challenger output helpers -/

theorem challengerOf_eq_some {db : Db} {u : String} {v : String × Payment} {c : Challenger}
    (h : challengerOf db u v = some c) :
    c.user_id = u ∧ c.payment_id = v.1 ∧
    c.latest_payment_date = v.2.createdAt.getD 0 := by
  unfold challengerOf at h
  cases hp : fetch_user_profile db u with
  | none => rw [hp] at h; cases h
  | some prof =>
    rw [hp] at h
    cases h
    exact ⟨rfl, rfl, rfl⟩

theorem mem_filterMap_challengerOf {db : Db} {l : List (String × (String × Payment))}
    {c : Challenger} (h : c ∈ l.filterMap (fun x => challengerOf db x.1 x.2)) :
    ∃ x ∈ l, challengerOf db x.1 x.2 = some c := by
  rcases List.mem_filterMap.mp h with ⟨x, hx, hcx⟩
  exact ⟨x, hx, hcx⟩

theorem user_id_mem_keys {db : Db} {l : List (String × (String × Payment))}
    {c : Challenger} (h : c ∈ l.filterMap (fun x => challengerOf db x.1 x.2)) :
    c.user_id ∈ l.map Prod.fst := by
  rcases mem_filterMap_challengerOf h with ⟨x, hx, hcx⟩
  rcases challengerOf_eq_some hcx with ⟨h1, _, _⟩
  rw [h1]
  exact List.mem_map_of_mem _ hx

theorem pairwise_user_id_filterMap {db : Db} :
    ∀ {l : List (String × (String × Payment))}, (l.map Prod.fst).Nodup →
      (l.filterMap (fun x => challengerOf db x.1 x.2)).Pairwise
        (fun a b => a.user_id ≠ b.user_id)
  | [], _ => by simp
  | x :: t, hnd => by
    have hnd' : (x.1 :: t.map Prod.fst).Nodup := hnd
    rcases List.nodup_cons.mp hnd' with ⟨hx, ht⟩
    rw [List.filterMap_cons]
    cases hc : challengerOf db x.1 x.2 with
    | none => exact pairwise_user_id_filterMap ht
    | some c =>
      refine List.pairwise_cons.mpr ⟨?_, pairwise_user_id_filterMap ht⟩
      intro b hb
      have hbmem := user_id_mem_keys hb
      rcases challengerOf_eq_some hc with ⟨h1, _, _⟩
      rw [h1]
      intro heq
      exact hx (heq ▸ hbmem)

/-! ### Window facts -/

theorem pairwise_paymentSort (db : Db) :
    (sortByB qLe db.paymentList).Pairwise (fun x y => qLe x y = true) :=
  pairwise_sortByB qLe qLe_total qLe_trans db.paymentList

theorem mem_queryRecentWindow {db : Db} {n : Nat} {e : String × Entry}
    (h : e ∈ queryRecentWindow db n) : e ∈ db.paymentList :=
  mem_sortByB.mp (takeLast_subset n (sortByB qLe db.paymentList) h)

/-- Upward closure of the `limit_to_last` window: if a window element
has `createdAt = some x` and another entry of the subtree has
`createdAt = some y` with `x < y`, that entry is in the window too. -/
theorem mem_queryRecentWindow_of_gt {db : Db} {n : Nat}
    {e1 e2 : String × Entry} {x y : Int}
    (h1 : e1 ∈ queryRecentWindow db n) (h2 : e2 ∈ db.paymentList)
    (hx : createdAtOf e1.2 = some x) (hy : createdAtOf e2.2 = some y) (hlt : x < y) :
    e2 ∈ queryRecentWindow db n := by
  refine mem_takeLast_of_pairwise (pairwise_paymentSort db) h1
    (mem_sortByB.mpr h2) ?_
  simp only [qLe, optLexLe, hx, hy]
  intro hcon
  simp only [Bool.or_eq_true, Bool.and_eq_true, decide_eq_true_eq] at hcon
  rcases hcon with hcon | ⟨hcon, _⟩
  · omega
  · omega

/-! ### Record membership helpers -/

theorem mem_recordsOf {l : List (String × Entry)} {r : PaymentRecord}
    (h : r ∈ recordsOf l) : (r.payment_id, Entry.record r.data) ∈ l := by
  rcases List.mem_filterMap.mp h with ⟨e, he, hfe⟩
  obtain ⟨k, en⟩ := e
  cases en with
  | malformed => simp [recordsOf] at hfe
  | record p =>
    rw [show (match ((k, Entry.record p) : String × Entry).2 with
        | Entry.record p => some (⟨(k, Entry.record p).1, p⟩ : PaymentRecord)
        | Entry.malformed => none) = some ⟨k, p⟩ from rfl,
      Option.some.injEq] at hfe
    rw [← hfe]
    exact he

theorem recordsOf_mem {l : List (String × Entry)} {k : String} {p : Payment}
    (h : (k, Entry.record p) ∈ l) : (⟨k, p⟩ : PaymentRecord) ∈ recordsOf l :=
  List.mem_filterMap.mpr ⟨(k, Entry.record p), h, rfl⟩

theorem mem_completedRecordsOf {l : List (String × Entry)} {r : PaymentRecord}
    (h : r ∈ completedRecordsOf l) :
    (r.payment_id, Entry.record r.data) ∈ l ∧ r.data.status = some "completed" := by
  rcases List.mem_filterMap.mp h with ⟨e, he, hfe⟩
  obtain ⟨k, en⟩ := e
  cases en with
  | malformed => simp [completedRecordsOf] at hfe
  | record p =>
    by_cases hst : p.status = some "completed"
    · rw [show (match ((k, Entry.record p) : String × Entry).2 with
          | Entry.record p =>
            if p.status = some "completed"
            then some (⟨(k, Entry.record p).1, p⟩ : PaymentRecord) else none
          | Entry.malformed => none) =
          (if p.status = some "completed" then some (⟨k, p⟩ : PaymentRecord) else none)
          from rfl, if_pos hst, Option.some.injEq] at hfe
      rw [← hfe]
      exact ⟨he, hst⟩
    · rw [show (match ((k, Entry.record p) : String × Entry).2 with
          | Entry.record p =>
            if p.status = some "completed"
            then some (⟨(k, Entry.record p).1, p⟩ : PaymentRecord) else none
          | Entry.malformed => none) =
          (if p.status = some "completed" then some (⟨k, p⟩ : PaymentRecord) else none)
          from rfl, if_neg hst] at hfe
      cases hfe

theorem completedRecordsOf_mem {l : List (String × Entry)} {k : String} {p : Payment}
    (h : (k, Entry.record p) ∈ l) (hst : p.status = some "completed") :
    (⟨k, p⟩ : PaymentRecord) ∈ completedRecordsOf l :=
  List.mem_filterMap.mpr ⟨(k, Entry.record p), h, by
    show (if p.status = some "completed" then some (⟨k, p⟩ : PaymentRecord) else none) = _
    rw [if_pos hst]⟩

theorem mem_userRecordsOf {l : List (String × PEntry)} {r : UserRecord}
    (h : r ∈ userRecordsOf l) : (r.user_id, PEntry.profile r.data) ∈ l := by
  rcases List.mem_filterMap.mp h with ⟨e, he, hfe⟩
  obtain ⟨k, en⟩ := e
  cases en with
  | malformed => simp [userRecordsOf] at hfe
  | profile p =>
    rw [show (match ((k, PEntry.profile p) : String × PEntry).2 with
        | PEntry.profile p => some (⟨(k, PEntry.profile p).1, p⟩ : UserRecord)
        | PEntry.malformed => none) = some ⟨k, p⟩ from rfl,
      Option.some.injEq] at hfe
    rw [← hfe]
    exact he

theorem userRecordsOf_mem {l : List (String × PEntry)} {k : String} {p : Profile}
    (h : (k, PEntry.profile p) ∈ l) : (⟨k, p⟩ : UserRecord) ∈ userRecordsOf l :=
  List.mem_filterMap.mpr ⟨(k, PEntry.profile p), h, rfl⟩

theorem length_recordsOf_le (l : List (String × Entry)) :
    (recordsOf l).length ≤ l.length :=
  List.length_filterMap_le _ l

theorem length_userRecordsOf_le (l : List (String × PEntry)) :
    (userRecordsOf l).length ≤ l.length :=
  List.length_filterMap_le _ l

theorem length_queryRecentWindow_le (db : Db) (n : Nat) :
    (queryRecentWindow db n).length ≤ n :=
  length_takeLast_le n _

theorem length_queryUsersWindow_le (db : Db) (n : Nat) :
    (queryUsersWindow db n).length ≤ n :=
  length_takeLast_le n _

theorem pairwise_desc (l : List PaymentRecord) :
    (sortByB descLe l).Pairwise
      (fun a b => b.data.createdAt.getD 0 ≤ a.data.createdAt.getD 0) :=
  (pairwise_sortByB descLe descLe_total descLe_trans l).imp
    (fun h => by simpa [descLe, decide_eq_true_eq] using h)

theorem pairwise_descJoin (l : List UserRecord) :
    (sortByB descJoinLe l).Pairwise
      (fun a b => b.data.userJoinDate.getD 0 ≤ a.data.userJoinDate.getD 0) :=
  (pairwise_sortByB descJoinLe descJoinLe_total descJoinLe_trans l).imp
    (fun h => by simpa [descJoinLe, decide_eq_true_eq] using h)

/-! ### Claim C2 -/

/-- C2: for every payments snapshot and every positive limit,
`fetch_recent_payments(limit)` returns at most `limit` records, sorted
by `createdAt` descending (missing `createdAt` treated as `0`), and
every returned record's `payment_id` is an existing document key under
the `payments` subtree; on the indexed path and on the full-scan
fallback path alike (the database value selects the path). -/
theorem C2_recent_payments_spec (db : Db) (limit : Nat) (_hpos : 0 < limit) :
    (runRecentPayments db limit).length ≤ limit ∧
    (runRecentPayments db limit).Pairwise
      (fun a b => b.data.createdAt.getD 0 ≤ a.data.createdAt.getD 0) ∧
    ∀ r ∈ runRecentPayments db limit, r.payment_id ∈ db.paymentKeys := by
  rw [runRecentPayments_eq]
  cases hIdx : db.indexedOk with
  | true =>
    rw [if_pos rfl]
    refine ⟨?_, pairwise_desc _, ?_⟩
    · rw [length_sortByB]
      exact le_trans (length_recordsOf_le _) (length_queryRecentWindow_le db limit)
    · intro r hr
      have h1 := mem_recordsOf (mem_sortByB.mp hr)
      have h2 := mem_queryRecentWindow h1
      exact List.mem_map_of_mem Prod.fst h2
  | false =>
    rw [if_neg (by simp)]
    cases hScan : db.scanOk with
    | false =>
      rw [if_neg (by simp)]
      refine ⟨by simp, by simp, ?_⟩
      intro r hr
      cases hr
    | true =>
      rw [if_pos rfl]
      cases hpay : db.payments with
      | missing =>
        refine ⟨by simp, by simp, ?_⟩
        intro r hr
        cases hr
      | leaf =>
        refine ⟨by simp, by simp, ?_⟩
        intro r hr
        cases hr
      | dict es =>
        refine ⟨List.length_take_le _ _, ?_, ?_⟩
        · exact List.Pairwise.sublist (List.take_sublist _ _) (pairwise_desc _)
        · intro r hr
          have h1 := mem_recordsOf (mem_sortByB.mp (List.mem_of_mem_take hr))
          have h2 : (r.payment_id, Entry.record r.data) ∈ db.paymentList := by
            rw [Db.paymentList, hpay]
            exact h1
          exact List.mem_map_of_mem Prod.fst h2

def wPay1 : Payment :=
  { createdAt := some 1000, status := some "completed", userId := some "user1",
    amount := some 100, currency := some "usd", challengeId := some "ch1" }

def wPay2 : Payment :=
  { createdAt := some 2000, status := some "pending", userId := some "user2" }

def dbW2 : Db :=
  { payments := Subtree.dict
      [("k1", Entry.record wPay1), ("k2", Entry.record wPay2), ("bad", Entry.malformed)],
    profiles := Subtree.dict [("user1", PEntry.profile { userName := some "A" })],
    indexedOk := true,
    scanOk := true }

/-- Witness for C2: the claim instantiated at a concrete snapshot with
a concrete returned record. -/
theorem C2_recent_payments_spec_witness :
    0 < 2 ∧ (runRecentPayments dbW2 2).length ≤ 2 ∧
    (⟨"k2", wPay2⟩ : PaymentRecord) ∈ runRecentPayments dbW2 2 ∧
    (⟨"k2", wPay2⟩ : PaymentRecord).payment_id ∈ dbW2.paymentKeys := by
  have h := C2_recent_payments_spec dbW2 2 (by decide)
  exact ⟨by decide, h.1, by decide, h.2.2 ⟨"k2", wPay2⟩ (by decide)⟩

/-! ### Claim C3 -/

theorem startAt_cond {cutoff : Int} {e : String × Entry}
    (h : (match createdAtOf e.2 with
          | some c => decide (cutoff ≤ c)
          | none => false) = true) :
    cutoff ≤ (createdAtOf e.2).getD 0 := by
  cases hc : createdAtOf e.2 with
  | none => rw [hc] at h; cases h
  | some c => rw [hc] at h; simpa using h

/-- C3: for every payments snapshot and cutoff (the epoch-millisecond
value of `now - 24h`), `fetch_valid_payments_24h()` returns only
records whose `status` is `"completed"` and whose `createdAt`
(absent treated as `0`) is at least the cutoff, sorted by `createdAt`
descending; on the indexed path and on the fallback path alike. -/
theorem C3_valid24h_spec (db : Db) (cutoff : Int) :
    (∀ r ∈ runValid24h db cutoff,
       r.data.status = some "completed" ∧ cutoff ≤ r.data.createdAt.getD 0) ∧
    (runValid24h db cutoff).Pairwise
      (fun a b => b.data.createdAt.getD 0 ≤ a.data.createdAt.getD 0) := by
  rw [runValid24h_eq]
  cases hIdx : db.indexedOk with
  | true =>
    rw [if_pos rfl]
    refine ⟨?_, pairwise_desc _⟩
    intro r hr
    rcases mem_completedRecordsOf (mem_sortByB.mp hr) with ⟨h1, hst⟩
    have h2 := List.mem_filter.mp (mem_sortByB.mp h1)
    refine ⟨hst, ?_⟩
    have := startAt_cond h2.2
    simpa [createdAtOf] using this
  | false =>
    rw [if_neg (by simp)]
    cases hScan : db.scanOk with
    | false =>
      rw [if_neg (by simp)]
      exact ⟨fun r hr => absurd hr (by simp), by simp⟩
    | true =>
      rw [if_pos rfl]
      cases hpay : db.payments with
      | missing => exact ⟨fun r hr => absurd hr (by simp), by simp⟩
      | leaf => exact ⟨fun r hr => absurd hr (by simp), by simp⟩
      | dict es =>
        refine ⟨?_, pairwise_desc _⟩
        intro r hr
        rcases List.mem_filterMap.mp (mem_sortByB.mp hr) with ⟨e, he, hfe⟩
        obtain ⟨k, en⟩ := e
        cases en with
        | malformed => simp at hfe
        | record p =>
          by_cases hc : p.status = some "completed" ∧ cutoff ≤ p.createdAt.getD 0
          · rw [show (match ((k, Entry.record p) : String × Entry).2 with
                | Entry.record p =>
                  if p.status = some "completed" ∧ cutoff ≤ p.createdAt.getD 0
                  then some (⟨(k, Entry.record p).1, p⟩ : PaymentRecord) else none
                | Entry.malformed => none) =
                (if p.status = some "completed" ∧ cutoff ≤ p.createdAt.getD 0
                 then some (⟨k, p⟩ : PaymentRecord) else none) from rfl,
              if_pos hc, Option.some.injEq] at hfe
            rw [← hfe]
            exact hc
          · rw [show (match ((k, Entry.record p) : String × Entry).2 with
                | Entry.record p =>
                  if p.status = some "completed" ∧ cutoff ≤ p.createdAt.getD 0
                  then some (⟨(k, Entry.record p).1, p⟩ : PaymentRecord) else none
                | Entry.malformed => none) =
                (if p.status = some "completed" ∧ cutoff ≤ p.createdAt.getD 0
                 then some (⟨k, p⟩ : PaymentRecord) else none) from rfl,
              if_neg hc] at hfe
            cases hfe

/-- Witness for C3: the claim instantiated at a concrete snapshot with
a concrete returned record. -/
theorem C3_valid24h_spec_witness :
    (⟨"k1", wPay1⟩ : PaymentRecord) ∈ runValid24h dbW2 500 ∧
    wPay1.status = some "completed" ∧ (500 : Int) ≤ wPay1.createdAt.getD 0 := by
  have h := C3_valid24h_spec dbW2 500
  have hm : (⟨"k1", wPay1⟩ : PaymentRecord) ∈ runValid24h dbW2 500 := by decide
  exact ⟨hm, h.1 ⟨"k1", wPay1⟩ hm⟩

/-! ### Claim C1 -/

theorem catchE_ok_of {α : Type} (x : Except Unit (List α)) (h : Unit → Except Unit (List α))
    (hh : ∃ l, h () = Except.ok l) : ∃ l, catchE x h = Except.ok l := by
  cases x with
  | ok a => exact ⟨a, rfl⟩
  | error e => cases e; exact hh

theorem fetch_recent_payments_ok (db : Db) (limit : Nat) :
    ∃ l, fetch_recent_payments db limit = Except.ok l :=
  catchE_ok_of _ _ (catchE_ok_of _ _ ⟨[], rfl⟩)

theorem fetch_valid_payments_24h_ok (db : Db) (cutoff : Int) :
    ∃ l, fetch_valid_payments_24h db cutoff = Except.ok l :=
  catchE_ok_of _ _ (catchE_ok_of _ _ ⟨[], rfl⟩)

theorem fetch_user_payments_ok (db : Db) (uid : String) (limit : Nat) :
    ∃ l, fetch_user_payments db uid limit = Except.ok l :=
  catchE_ok_of _ _ ⟨[], rfl⟩

theorem fetch_latest_users_ok (db : Db) (limit : Nat) :
    ∃ l, fetch_latest_users db limit = Except.ok l :=
  catchE_ok_of _ _ (catchE_ok_of _ _ ⟨[], rfl⟩)

theorem fetch_recent_challengers_ok (db : Db) (limit : Nat) :
    ∃ l, fetch_recent_challengers db limit = Except.ok l :=
  catchE_ok_of _ _ ⟨[], rfl⟩

theorem paymentList_empty_of_not_dict {db : Db}
    (h : db.payments = Subtree.missing ∨ db.payments = Subtree.leaf) :
    db.paymentList = [] := by
  rcases h with h | h <;> simp [Db.paymentList, h]

theorem profileList_empty_of_not_dict {db : Db}
    (h : db.profiles = Subtree.missing ∨ db.profiles = Subtree.leaf) :
    db.profileList = [] := by
  rcases h with h | h <;> simp [Db.profileList, h]

/-- C1: none of the five list-returning operations ever propagates an
exception: each one evaluates to `Except.ok` on every database value.
When the primary indexed query raises, an operation with a fallback
returns exactly the guarded fallback's value and an operation without
one returns the empty list; a missing or malformed (non-mapping)
subtree produces the empty list. -/
theorem C1_list_ops_never_raise (db : Db) (limit : Nat) (uid : String) (cutoff : Int) :
    (∃ l, fetch_recent_payments db limit = Except.ok l) ∧
    (∃ l, fetch_valid_payments_24h db cutoff = Except.ok l) ∧
    (∃ l, fetch_user_payments db uid limit = Except.ok l) ∧
    (∃ l, fetch_latest_users db limit = Except.ok l) ∧
    (∃ l, fetch_recent_challengers db limit = Except.ok l) ∧
    (db.indexedOk = false →
      fetch_recent_payments db limit =
        catchE (fallbackRecentPayments db limit) (fun _ => Except.ok []) ∧
      fetch_valid_payments_24h db cutoff =
        catchE (fallbackValid24h db cutoff) (fun _ => Except.ok []) ∧
      fetch_latest_users db limit =
        catchE (fallbackLatestUsers db limit) (fun _ => Except.ok []) ∧
      fetch_user_payments db uid limit = Except.ok [] ∧
      fetch_recent_challengers db limit = Except.ok []) ∧
    (db.payments = Subtree.missing ∨ db.payments = Subtree.leaf →
      runRecentPayments db limit = [] ∧ runValid24h db cutoff = [] ∧
      runUserPayments db uid limit = [] ∧ runChallengers db limit = []) ∧
    (db.profiles = Subtree.missing ∨ db.profiles = Subtree.leaf →
      runLatestUsers db limit = []) := by
  refine ⟨fetch_recent_payments_ok db limit, fetch_valid_payments_24h_ok db cutoff,
    fetch_user_payments_ok db uid limit, fetch_latest_users_ok db limit,
    fetch_recent_challengers_ok db limit, ?_, ?_, ?_⟩
  · intro hIdx
    refine ⟨?_, ?_, ?_, ?_, ?_⟩
    · rw [fetch_recent_payments,
        show primaryRecentPayments db limit = Except.error () from by
          simp [primaryRecentPayments, indexedQuery, hIdx]]
      rfl
    · rw [fetch_valid_payments_24h,
        show primaryValid24h db cutoff = Except.error () from by
          simp [primaryValid24h, indexedQuery, hIdx]]
      rfl
    · rw [fetch_latest_users,
        show primaryLatestUsers db limit = Except.error () from by
          simp [primaryLatestUsers, indexedQueryU, hIdx]]
      rfl
    · rw [fetch_user_payments,
        show primaryUserPayments db uid limit = Except.error () from by
          simp [primaryUserPayments, indexedQuery, hIdx]]
      rfl
    · rw [fetch_recent_challengers,
        show primaryChallengers db limit = Except.error () from by
          simp [primaryChallengers, indexedQuery, hIdx]]
      rfl
  · intro hpay
    have hpl := paymentList_empty_of_not_dict hpay
    refine ⟨?_, ?_, ?_, ?_⟩
    · rw [runRecentPayments_eq]
      cases hIdx : db.indexedOk with
      | true =>
        rw [if_pos rfl]
        simp [queryRecentWindow, hpl, sortByB, takeLast, recordsOf]
      | false =>
        rw [if_neg (by simp)]
        cases hScan : db.scanOk with
        | true =>
          rw [if_pos rfl]
          rcases hpay with h | h <;> rw [h]
        | false => rw [if_neg (by simp)]
    · rw [runValid24h_eq]
      cases hIdx : db.indexedOk with
      | true =>
        rw [if_pos rfl]
        simp [queryStartAtWindow, hpl, sortByB]
      | false =>
        rw [if_neg (by simp)]
        cases hScan : db.scanOk with
        | true =>
          rw [if_pos rfl]
          rcases hpay with h | h <;> rw [h]
        | false => rw [if_neg (by simp)]
    · rw [runUserPayments_eq]
      cases hIdx : db.indexedOk with
      | true =>
        rw [if_pos rfl]
        simp [queryUserWindow, hpl, sortByB, takeLast, recordsOf]
      | false => rw [if_neg (by simp)]
    · rw [runChallengers_eq]
      cases hIdx : db.indexedOk with
      | true =>
        rw [if_pos rfl]
        simp [queryRecentWindow, hpl, sortByB, takeLast, buildMap]
      | false => rw [if_neg (by simp)]
  · intro hprof
    have hpl := profileList_empty_of_not_dict hprof
    rw [runLatestUsers_eq]
    cases hIdx : db.indexedOk with
    | true =>
      rw [if_pos rfl]
      simp [queryUsersWindow, hpl, sortByB, takeLast, userRecordsOf]
    | false =>
      rw [if_neg (by simp)]
      cases hScan : db.scanOk with
      | true =>
        rw [if_pos rfl]
        rcases hprof with h | h <;> rw [h]
      | false => rw [if_neg (by simp)]

def dbW1 : Db :=
  { payments := Subtree.missing, profiles := Subtree.leaf,
    indexedOk := false, scanOk := false }

/-- Witness for C1 at a concrete database value whose indexed query
raises and whose subtrees are missing or malformed. -/
theorem C1_list_ops_never_raise_witness :
    (∃ l, fetch_recent_payments dbW1 5 = Except.ok l) ∧
    fetch_user_payments dbW1 "u" 5 = Except.ok [] ∧
    runRecentPayments dbW1 5 = [] ∧ runChallengers dbW1 5 = [] ∧
    runLatestUsers dbW1 5 = [] := by
  have h := C1_list_ops_never_raise dbW1 5 "u" 0
  refine ⟨h.1, (h.2.2.2.2.2.1 rfl).2.2.2.1, ?_, ?_, ?_⟩
  · exact (h.2.2.2.2.2.2.1 (Or.inl rfl)).1
  · exact (h.2.2.2.2.2.2.1 (Or.inl rfl)).2.2.2
  · exact h.2.2.2.2.2.2.2 (Or.inr rfl)

/-! ### Claim C4 -/

theorem uCands_mem {u : String} {l : List (String × Entry)} {k : String} {p : Payment}
    (h : (k, Entry.record p) ∈ l) (hst : p.status = some "completed")
    (hu : p.userId = some u) :
    ((k, p) : String × Payment) ∈ uCands u l :=
  List.mem_filterMap.mpr ⟨(k, Entry.record p), h, by
    show (if p.status = some "completed" ∧ p.userId = some u
          then some ((k, p) : String × Payment) else none) = _
    rw [if_pos ⟨hst, hu⟩]⟩

/-- The payment record of the earlier of two completed payments of the
same user never supplies the `payment_id` of a challenger entry. -/
theorem challengers_later_wins (db : Db) (limit : Nat)
    (u k1 k2 : String) (p1 p2 : Payment) (c1 c2 : Int)
    (hnd : (db.paymentList.map Prod.fst).Nodup)
    (h1 : (k1, Entry.record p1) ∈ db.paymentList)
    (h2 : (k2, Entry.record p2) ∈ db.paymentList)
    (_hs1 : p1.status = some "completed") (hs2 : p2.status = some "completed")
    (hu1 : p1.userId = some u) (hu2 : p2.userId = some u)
    (hc1 : p1.createdAt = some c1) (hc2 : p2.createdAt = some c2)
    (hlt : c1 < c2) :
    ∀ c ∈ runChallengers db limit, c.payment_id ≠ k1 := by
  intro c hm hk
  rw [runChallengers_eq] at hm
  cases hIdx : db.indexedOk with
  | false => rw [hIdx] at hm; simp at hm
  | true =>
    rw [hIdx, if_pos rfl] at hm
    rcases mem_filterMap_challengerOf hm with ⟨x, hx, hcx⟩
    have hxm : x ∈ buildMap (queryRecentWindow db 100) :=
      mem_sortByB.mp (List.mem_of_mem_take hx)
    rcases mem_buildMap hxm with ⟨hx1, hx2, hx3, hx4⟩
    rcases challengerOf_eq_some hcx with ⟨_, hcp, _⟩
    have hxk1 : x.2.1 = k1 := by rw [← hcp, hk]
    rw [hxk1] at hx4
    have hwin1 : (k1, Entry.record x.2.2) ∈ queryRecentWindow db 100 := hx4
    have hinl : (k1, Entry.record x.2.2) ∈ db.paymentList :=
      mem_queryRecentWindow hwin1
    have hrec : Entry.record x.2.2 = Entry.record p1 :=
      pair_eq_of_nodup_keys hnd hinl h1
    have hxp1 : x.2.2 = p1 := by injection hrec
    have hxu : x.1 = u := by
      have := hx2
      rw [hxp1, hu1] at this
      injection this with h
      exact h.symm
    have hune : u ≠ "" := by rw [← hxu]; exact hx1
    have hwin2 : (k2, Entry.record p2) ∈ queryRecentWindow db 100 := by
      refine @mem_queryRecentWindow_of_gt db 100 (k1, Entry.record x.2.2)
        (k2, Entry.record p2) c1 c2 hwin1 h2 ?_ ?_ hlt
      · rw [hxp1]
        simpa [createdAtOf] using hc1
      · simpa [createdAtOf] using hc2
    have hcand : ((k2, p2) : String × Payment) ∈ uCands u (queryRecentWindow db 100) :=
      uCands_mem hwin2 hs2 hu2
    have hlk : lookupA x.1 (buildMap (queryRecentWindow db 100)) = some x.2 :=
      lookupA_eq_of_mem (nodup_keysOf_buildMap _) hxm
    rw [hxu, lookupA_buildMap_eq u hune] at hlk
    have hle := (pickBest_le _ _ _ hlk).1 (k2, p2) hcand
    rw [hxp1] at hle
    rw [hc1, hc2] at hle
    simp only [Option.getD_some] at hle
    omega

/-- C4 as frozen is refuted by `C4_counterexample`; the amended claim:
for two COMPLETED payment records of the same user with present,
distinct `createdAt` timestamps, only the later one can contribute a
challenger entry; the output has at most one entry per distinct
`userId` and length at most `limit`. -/
theorem C4_challengers_amended (db : Db) (limit : Nat) :
    (runChallengers db limit).length ≤ limit ∧
    (runChallengers db limit).Pairwise (fun a b => a.user_id ≠ b.user_id) ∧
    (∀ (u k1 k2 : String) (p1 p2 : Payment) (c1 c2 : Int),
      (db.paymentList.map Prod.fst).Nodup →
      (k1, Entry.record p1) ∈ db.paymentList →
      (k2, Entry.record p2) ∈ db.paymentList →
      p1.status = some "completed" → p2.status = some "completed" →
      p1.userId = some u → p2.userId = some u →
      p1.createdAt = some c1 → p2.createdAt = some c2 → c1 < c2 →
      ∀ c ∈ runChallengers db limit, c.payment_id ≠ k1) := by
  refine ⟨?_, ?_, ?_⟩
  · rw [runChallengers_eq]
    cases hIdx : db.indexedOk with
    | true =>
      rw [if_pos rfl]
      exact le_trans (List.length_filterMap_le _ _) (List.length_take_le _ _)
    | false =>
      rw [if_neg (by simp)]
      simp
  · rw [runChallengers_eq]
    cases hIdx : db.indexedOk with
    | true =>
      rw [if_pos rfl]
      refine pairwise_user_id_filterMap ?_
      have hnd : (keysOf (buildMap (queryRecentWindow db 100))).Nodup :=
        nodup_keysOf_buildMap _
      have hperm : List.Perm ((sortByB upLe (buildMap (queryRecentWindow db 100))).map Prod.fst)
          ((buildMap (queryRecentWindow db 100)).map Prod.fst) :=
        (perm_sortByB upLe _).map Prod.fst
      have hnds : ((sortByB upLe (buildMap (queryRecentWindow db 100))).map Prod.fst).Nodup :=
        hperm.nodup_iff.mpr hnd
      exact List.Sublist.nodup ((List.take_sublist _ _).map Prod.fst) hnds
    | false =>
      rw [if_neg (by simp)]
      simp
  · intro u k1 k2 p1 p2 c1 c2 hnd h1 h2 hs1 hs2 hu1 hu2 hc1 hc2 hlt
    exact challengers_later_wins db limit u k1 k2 p1 p2 c1 c2 hnd h1 h2 hs1 hs2
      hu1 hu2 hc1 hc2 hlt

def cxPayOld : Payment :=
  { createdAt := some 100, status := some "completed", userId := some "u1",
    amount := some 500, currency := some "usd", challengeId := some "chA" }

def cxPayNew : Payment :=
  { createdAt := some 200, status := some "pending", userId := some "u1" }

def dbC4 : Db :=
  { payments := Subtree.dict
      [("pOld", Entry.record cxPayOld), ("pNew", Entry.record cxPayNew)],
    profiles := Subtree.dict [("u1", PEntry.profile { userName := some "Alice" })],
    indexedOk := true,
    scanOk := true }

/-- Counterexample to C4 as frozen: the snapshot holds two payment
records for the same `userId` with different `createdAt` (100 and 200),
yet the entry emitted by `fetch_recent_challengers` carries the
payment with the EARLIER timestamp (`pOld`), because the later payment
is not completed: the claim's "only the record with the later
timestamp contributes" fails without a completedness restriction. -/
theorem C4_counterexample :
    cxPayOld.userId = cxPayNew.userId ∧
    cxPayOld.createdAt = some 100 ∧ cxPayNew.createdAt = some 200 ∧
    (runChallengers dbC4 10).map (fun c => c.payment_id) = ["pOld"] := by decide

def w4PayA : Payment :=
  { createdAt := some 100, status := some "completed", userId := some "u4",
    amount := some 300, currency := some "usd", challengeId := some "chX" }

def w4PayB : Payment :=
  { createdAt := some 200, status := some "completed", userId := some "u4",
    amount := some 400, currency := some "usd", challengeId := some "chY" }

def dbW4 : Db :=
  { payments := Subtree.dict
      [("a4", Entry.record w4PayA), ("b4", Entry.record w4PayB)],
    profiles := Subtree.dict [("u4", PEntry.profile { userName := some "Bea" })],
    indexedOk := true,
    scanOk := true }

def cW4 : Challenger :=
  { user_id := "u4", payment_id := "b4", latest_payment_amount := 400,
    latest_payment_date := 200, latest_challenge_id := "chY", currency := "usd",
    profileData := { userName := some "Bea" } }

/-- Witness for the amended C4 at a concrete snapshot: two completed
payments of the same user; the emitted entry exists and does not carry
the earlier payment's key. -/
theorem C4_challengers_amended_witness :
    (runChallengers dbW4 10).length ≤ 10 ∧
    cW4 ∈ runChallengers dbW4 10 ∧ cW4.payment_id ≠ "a4" := by
  have h := C4_challengers_amended dbW4 10
  refine ⟨h.1, by decide, ?_⟩
  exact h.2.2 "u4" "a4" "b4" w4PayA w4PayB 100 200 (by decide) (by decide)
    (by decide) (by decide) (by decide) (by decide) (by decide) (by decide)
    (by decide) (by decide) cW4 (by decide)

/-! ### Claim C5 -/

def c5PayA : Payment :=
  { createdAt := some 100, status := some "completed", userId := some "u5",
    amount := some 700, currency := some "usd", challengeId := some "chA5" }

def c5PayB : Payment :=
  { createdAt := some 100, status := some "completed", userId := some "u5",
    amount := some 800, currency := some "usd", challengeId := some "chB5" }

def dbC5 : Db :=
  { payments := Subtree.dict
      [("a5", Entry.record c5PayA), ("b5", Entry.record c5PayB)],
    profiles := Subtree.dict [("u5", PEntry.profile { userName := some "Cid" })],
    indexedOk := true,
    scanOk := true }

/-- Counterexample to C5 as frozen: two completed payments of the same
user with an equal timestamp; the iteration order of the queried data
is `a5` then `b5`, so `b5` is encountered last, yet the emitted entry
carries `a5` — the dedup keeps the record already in the map on a tie
(the comparison is strict), not the one encountered last. -/
theorem C5_counterexample :
    queryRecentWindow dbC5 100 =
      [("a5", Entry.record c5PayA), ("b5", Entry.record c5PayB)] ∧
    c5PayA.createdAt = c5PayB.createdAt ∧
    (runChallengers dbC5 10).map (fun c => c.payment_id) = ["a5"] := by decide

/-- C5 as frozen is refuted by `C5_counterexample`; the amended claim:
when two completed payment records for the same user carry an equal
timestamp, the record encountered FIRST during iteration over the
queried payments data is the one retained. -/
theorem C5_tie_first_encountered_wins (db : Db) (limit : Nat)
    (u k1 k2 : String) (p1 p2 : Payment)
    (hu : u ≠ "")
    (hc : uCands u (queryRecentWindow db 100) = [(k1, p1), (k2, p2)])
    (ht : p2.createdAt.getD 0 = p1.createdAt.getD 0) :
    ∀ c ∈ runChallengers db limit, c.user_id = u → c.payment_id = k1 := by
  intro c hm hcu
  rw [runChallengers_eq] at hm
  cases hIdx : db.indexedOk with
  | false => rw [hIdx] at hm; simp at hm
  | true =>
    rw [hIdx, if_pos rfl] at hm
    rcases mem_filterMap_challengerOf hm with ⟨x, hx, hcx⟩
    have hxm : x ∈ buildMap (queryRecentWindow db 100) :=
      mem_sortByB.mp (List.mem_of_mem_take hx)
    rcases challengerOf_eq_some hcx with ⟨hcu', hcp, _⟩
    have hx1 : x.1 = u := by rw [← hcu', hcu]
    have hlk : lookupA x.1 (buildMap (queryRecentWindow db 100)) = some x.2 :=
      lookupA_eq_of_mem (nodup_keysOf_buildMap _) hxm
    rw [hx1, lookupA_buildMap_eq u hu, hc,
      pickBest_pair_tie (k1, p1) (k2, p2) ht, Option.some.injEq] at hlk
    rw [hcp, ← hlk]

/-- Witness for the amended C5 at `dbC5`: the tied pair is exactly the
candidate list for `u5`, and the emitted entry carries the first key. -/
theorem C5_tie_first_encountered_wins_witness :
    uCands "u5" (queryRecentWindow dbC5 100) = [("a5", c5PayA), ("b5", c5PayB)] ∧
    (⟨"u5", "a5", 700, 100, "chA5", "usd", { userName := some "Cid" }⟩ : Challenger) ∈
      runChallengers dbC5 10 ∧
    (⟨"u5", "a5", 700, 100, "chA5", "usd", { userName := some "Cid" }⟩ : Challenger).payment_id
      = "a5" := by
  refine ⟨by decide, by decide, ?_⟩
  exact C5_tie_first_encountered_wins dbC5 10 "u5" "a5" "b5" c5PayA c5PayB
    (by decide) (by decide) (by decide) _ (by decide) (by decide)

/-! ### Claim C10 -/

/-- C10: every challenger entry carries a non-empty `user_id`;
completed payments whose `userId` is absent or empty never enter the
per-user dedup map, and every emitted entry stems from a completed
payment record of the subtree whose `userId` equals the entry's
(non-empty) `user_id`. -/
theorem C10_challengers_nonempty_user (db : Db) (limit : Nat) :
    (∀ x ∈ buildMap (queryRecentWindow db 100),
       x.1 ≠ "" ∧ x.2.2.userId = some x.1 ∧ x.2.2.status = some "completed") ∧
    ∀ c ∈ runChallengers db limit, c.user_id ≠ "" ∧
      ∃ p : Payment, (c.payment_id, Entry.record p) ∈ db.paymentList ∧
        p.userId = some c.user_id ∧ p.status = some "completed" := by
  constructor
  · intro x hx
    rcases mem_buildMap hx with ⟨h1, h2, h3, _⟩
    exact ⟨h1, h2, h3⟩
  · intro c hm
    rw [runChallengers_eq] at hm
    cases hIdx : db.indexedOk with
    | false => rw [hIdx] at hm; simp at hm
    | true =>
      rw [hIdx, if_pos rfl] at hm
      rcases mem_filterMap_challengerOf hm with ⟨x, hx, hcx⟩
      have hxm : x ∈ buildMap (queryRecentWindow db 100) :=
        mem_sortByB.mp (List.mem_of_mem_take hx)
      rcases mem_buildMap hxm with ⟨h1, h2, h3, h4⟩
      rcases challengerOf_eq_some hcx with ⟨hcu, hcp, _⟩
      refine ⟨by rw [hcu]; exact h1, x.2.2, ?_, by rw [hcu]; exact h2, h3⟩
      rw [hcp]
      exact mem_queryRecentWindow h4

def dbW10 : Db :=
  { payments := Subtree.dict
      [("b4", Entry.record w4PayB),
       ("noUser", Entry.record { createdAt := some 900, status := some "completed" }),
       ("emptyUser", Entry.record
         { createdAt := some 950, status := some "completed", userId := some "" })],
    profiles := Subtree.dict [("u4", PEntry.profile { userName := some "Bea" })],
    indexedOk := true,
    scanOk := true }

/-- Witness for C10: a concrete snapshot holding completed payments
with an empty and an absent `userId` alongside a well-formed one; the
claim applied to the emitted concrete entry. -/
theorem C10_challengers_nonempty_user_witness :
    cW4 ∈ runChallengers dbW10 10 ∧ cW4.user_id ≠ "" := by
  have h := C10_challengers_nonempty_user dbW10 10
  exact ⟨by decide, (h.2 cW4 (by decide)).1⟩

/-! ### Claim C6 -/

theorem calculate_payment_stats_amount_fields (l : List PaymentRecord)
    (hne : l.isEmpty = false) (hany : l.any (fun r => r.data.amount.isSome) = true) :
    (calculate_payment_stats l).count = some l.length ∧
    (calculate_payment_stats l).total_amount =
      some (l.filterMap (fun r => r.data.amount)).sum ∧
    (calculate_payment_stats l).average_amount =
      some ((((l.filterMap (fun r => r.data.amount)).sum : Int) : ℚ) /
        (((l.filterMap (fun r => r.data.amount)).length : Nat) : ℚ)) := by
  unfold calculate_payment_stats
  simp only [hne, Bool.false_eq_true, if_false]
  simp only [hany, if_true]
  refine ⟨?_, ?_, ?_⟩ <;> · split <;> split <;> rfl

/-- C7: `calculate_payment_stats` of the empty sequence is the empty
mapping, and of any three records whose `amount` fields are 100, 200
and 300 it reports `count = 3`, `total_amount = 600`,
`average_amount = 200`. -/
theorem C7_calculate_stats (r1 r2 r3 : PaymentRecord)
    (h1 : r1.data.amount = some 100) (h2 : r2.data.amount = some 200)
    (h3 : r3.data.amount = some 300) :
    calculate_payment_stats [] = {} ∧
    (calculate_payment_stats [r1, r2, r3]).count = some 3 ∧
    (calculate_payment_stats [r1, r2, r3]).total_amount = some 600 ∧
    (calculate_payment_stats [r1, r2, r3]).average_amount = some 200 := by
  have hfm : ([r1, r2, r3].filterMap (fun r => r.data.amount)) = [100, 200, 300] := by
    simp [List.filterMap_cons, h1, h2, h3]
  have hany : ([r1, r2, r3].any (fun r => r.data.amount.isSome)) = true := by
    simp [h1]
  have h := calculate_payment_stats_amount_fields [r1, r2, r3] (by simp) hany
  refine ⟨rfl, by simpa using h.1, ?_, ?_⟩
  · rw [h.2.1, hfm]
    norm_num
  · rw [h.2.2, hfm]
    norm_num

def wRec (n : Int) : PaymentRecord := ⟨"p", { amount := some n }⟩

/-- Witness for C7 at three concrete records. -/
theorem C7_calculate_stats_witness :
    calculate_payment_stats [] = {} ∧
    (calculate_payment_stats [wRec 100, wRec 200, wRec 300]).count = some 3 ∧
    (calculate_payment_stats [wRec 100, wRec 200, wRec 300]).total_amount = some 600 ∧
    (calculate_payment_stats [wRec 100, wRec 200, wRec 300]).average_amount = some 200 :=
  C7_calculate_stats (wRec 100) (wRec 200) (wRec 300) rfl rfl rfl

/-! ### Claim C9 -/

theorem fetch_user_profile_found (db : Db) (u : String) (hs : db.scanOk = true)
    {q : Profile} (hp : profileAt db u = some (PEntry.profile q)) :
    fetch_user_profile db u = (if q.isEmptyP then none else some q) := by
  simp [fetch_user_profile, hs, hp]

def dbC9 : Db :=
  { payments := Subtree.dict [],
    profiles := Subtree.dict [("u9", PEntry.profile {})],
    indexedOk := true,
    scanOk := true }

/-- Counterexample to C9's result description as frozen: the stored
value at `USER_PROFILES/u9` exists and is a mapping (the empty one),
yet `fetch_user_profile` returns `None` because an empty dict is falsy
in `if user_data and isinstance(user_data, dict)`. -/
theorem C9_counterexample :
    profileAt dbC9 "u9" = some (PEntry.profile {}) ∧
    fetch_user_profile dbC9 "u9" = none := by decide

/-- C9 amended: `fetch_user_profile` is deterministic and idempotent
(two calls against the same snapshot return equal results), and its
result is the stored mapping exactly when the read succeeds, the value
at `USER_PROFILES/<id>` is a mapping, and that mapping is non-empty;
otherwise `None`. -/
theorem C9_user_profile_amended (db : Db) (u : String) :
    fetch_user_profile db u = fetch_user_profile db u ∧
    (∀ p : Profile, fetch_user_profile db u = some p ↔
      db.scanOk = true ∧ profileAt db u = some (PEntry.profile p) ∧
      p.isEmptyP = false) := by
  refine ⟨rfl, ?_⟩
  intro p
  constructor
  · intro h
    cases hs : db.scanOk with
    | false => rw [fetch_user_profile, hs] at h; simp at h
    | true =>
      cases hp : profileAt db u with
      | none => rw [fetch_user_profile, hs, hp] at h; simp at h
      | some pe =>
        cases pe with
        | malformed => rw [fetch_user_profile, hs, hp] at h; simp at h
        | profile q =>
          rw [fetch_user_profile_found db u hs hp] at h
          by_cases he : q.isEmptyP
          · rw [if_pos he] at h
            cases h
          · rw [if_neg he] at h
            rw [Option.some.injEq] at h
            subst h
            exact ⟨rfl, rfl, by simpa using he⟩
  · rintro ⟨hs, hp, he⟩
    rw [fetch_user_profile_found db u hs hp, if_neg (by simp [he])]

def prof9 : Profile := { userName := some "Dee" }

def dbW9 : Db :=
  { payments := Subtree.dict [],
    profiles := Subtree.dict [("w9", PEntry.profile prof9)],
    indexedOk := true,
    scanOk := true }

/-- Witness for the amended C9 at a concrete snapshot. -/
theorem C9_user_profile_amended_witness :
    fetch_user_profile dbW9 "w9" = some prof9 ∧
    fetch_user_profile dbW9 "w9" = fetch_user_profile dbW9 "w9" := by
  have h := C9_user_profile_amended dbW9 "w9"
  exact ⟨(h.2 prof9).mpr ⟨rfl, by decide, by decide⟩, h.1⟩

/-! ### Claim C8 -/

def isRecB (e : String × Entry) : Bool :=
  match e.2 with
  | Entry.record _ => true
  | Entry.malformed => false

/-- The same database with the non-mapping entries of `payments` removed. -/
def cleanPayments (db : Db) : Db :=
  { db with payments :=
      match db.payments with
      | Subtree.dict es => Subtree.dict (es.filter isRecB)
      | s => s }

theorem cleanPayments_indexedOk (db : Db) : (cleanPayments db).indexedOk = db.indexedOk := rfl

theorem cleanPayments_scanOk (db : Db) : (cleanPayments db).scanOk = db.scanOk := rfl

theorem paymentList_clean (db : Db) :
    (cleanPayments db).paymentList = db.paymentList.filter isRecB := by
  cases hp : db.payments <;> simp [cleanPayments, Db.paymentList, hp]

theorem queryStartAtWindow_clean (db : Db) (cutoff : Int) :
    queryStartAtWindow (cleanPayments db) cutoff = queryStartAtWindow db cutoff := by
  unfold queryStartAtWindow
  rw [paymentList_clean, List.filter_filter]
  congr 1
  apply List.filter_congr
  intro e he
  obtain ⟨k, en⟩ := e
  cases en <;> simp [isRecB, createdAtOf]

theorem queryUserWindow_clean (db : Db) (uid : String) (n : Nat) :
    queryUserWindow (cleanPayments db) uid n = queryUserWindow db uid n := by
  unfold queryUserWindow
  rw [paymentList_clean, List.filter_filter]
  congr 2
  apply List.filter_congr
  intro e he
  obtain ⟨k, en⟩ := e
  cases en <;> simp [isRecB, userIdOf]

theorem filterMap_clean {β : Type} (f : String × Entry → Option β)
    (hf : ∀ k, f (k, Entry.malformed) = none) :
    ∀ (l : List (String × Entry)), (l.filter isRecB).filterMap f = l.filterMap f
  | [] => rfl
  | (k, en) :: t => by
    cases en with
    | record p =>
      rw [List.filter_cons_of_pos (by simp [isRecB]), List.filterMap_cons,
        List.filterMap_cons, filterMap_clean f hf t]
    | malformed =>
      rw [List.filter_cons_of_neg (by simp [isRecB]), List.filterMap_cons, hf k,
        filterMap_clean f hf t]

theorem runValid24h_clean (db : Db) (cutoff : Int) :
    runValid24h (cleanPayments db) cutoff = runValid24h db cutoff := by
  rw [runValid24h_eq, runValid24h_eq, cleanPayments_indexedOk, cleanPayments_scanOk,
    queryStartAtWindow_clean]
  cases hIdx : db.indexedOk with
  | true => rfl
  | false =>
    cases hScan : db.scanOk with
    | false => rfl
    | true =>
      rw [if_neg (show ¬(false = true) by simp), if_neg (show ¬(false = true) by simp),
        if_pos (show (true = true) from rfl), if_pos (show (true = true) from rfl)]
      cases hpay : db.payments with
      | missing => simp [cleanPayments, hpay]
      | leaf => simp [cleanPayments, hpay]
      | dict es =>
        simp only [cleanPayments, hpay]
        rw [filterMap_clean _ (fun k => rfl) es]

theorem runUserPayments_clean (db : Db) (uid : String) (limit : Nat) :
    runUserPayments (cleanPayments db) uid limit = runUserPayments db uid limit := by
  rw [runUserPayments_eq, runUserPayments_eq, cleanPayments_indexedOk,
    queryUserWindow_clean]

theorem runRecentPayments_sound (db : Db) (limit : Nat) :
    ∀ r ∈ runRecentPayments db limit,
      (r.payment_id, Entry.record r.data) ∈ db.paymentList := by
  rw [runRecentPayments_eq]
  cases hIdx : db.indexedOk with
  | true =>
    rw [if_pos rfl]
    intro r hr
    exact mem_queryRecentWindow (mem_recordsOf (mem_sortByB.mp hr))
  | false =>
    rw [if_neg (by simp)]
    cases hScan : db.scanOk with
    | false =>
      rw [if_neg (by simp)]
      intro r hr
      cases hr
    | true =>
      rw [if_pos rfl]
      cases hpay : db.payments with
      | missing => intro r hr; cases hr
      | leaf => intro r hr; cases hr
      | dict es =>
        intro r hr
        have h1 := mem_recordsOf (mem_sortByB.mp (List.mem_of_mem_take hr))
        rw [Db.paymentList, hpay]
        exact h1

theorem runLatestUsers_sound (db : Db) (limit : Nat) :
    ∀ u ∈ runLatestUsers db limit,
      (u.user_id, PEntry.profile u.data) ∈ db.profileList := by
  rw [runLatestUsers_eq]
  cases hIdx : db.indexedOk with
  | true =>
    rw [if_pos rfl]
    intro u hu
    have h1 := mem_userRecordsOf (mem_sortByB.mp hu)
    exact mem_sortByB.mp (takeLast_subset _ _ h1)
  | false =>
    rw [if_neg (by simp)]
    cases hScan : db.scanOk with
    | false =>
      rw [if_neg (by simp)]
      intro u hu
      cases hu
    | true =>
      rw [if_pos rfl]
      cases hprof : db.profiles with
      | missing => intro u hu; cases hu
      | leaf => intro u hu; cases hu
      | dict es =>
        intro u hu
        have h1 := mem_userRecordsOf (mem_sortByB.mp (List.mem_of_mem_take hu))
        rw [Db.profileList, hprof]
        exact h1

/-- C8: non-mapping entries are skipped, never fatal: every record any
list operation returns stems from a well-formed (mapping) entry of its
subtree; on the indexed path every well-formed entry of the queried
data yields its record in the result; and for the operations whose
queried window cannot contain non-mapping entries
(`fetch_valid_payments_24h`, `fetch_user_payments`) the result is
unchanged when the non-mapping entries are removed from the subtree. -/
theorem C8_malformed_skipped (db : Db) (limit : Nat) (uid : String) (cutoff : Int) :
    (∀ r ∈ runRecentPayments db limit,
       (r.payment_id, Entry.record r.data) ∈ db.paymentList) ∧
    (db.indexedOk = true → ∀ (k : String) (p : Payment),
       (k, Entry.record p) ∈ queryRecentWindow db limit →
       (⟨k, p⟩ : PaymentRecord) ∈ runRecentPayments db limit) ∧
    runValid24h (cleanPayments db) cutoff = runValid24h db cutoff ∧
    runUserPayments (cleanPayments db) uid limit = runUserPayments db uid limit ∧
    (∀ u ∈ runLatestUsers db limit,
       (u.user_id, PEntry.profile u.data) ∈ db.profileList) ∧
    (db.indexedOk = true → ∀ (k : String) (p : Profile),
       (k, PEntry.profile p) ∈ queryUsersWindow db limit →
       (⟨k, p⟩ : UserRecord) ∈ runLatestUsers db limit) := by
  refine ⟨runRecentPayments_sound db limit, ?_, runValid24h_clean db cutoff,
    runUserPayments_clean db uid limit, runLatestUsers_sound db limit, ?_⟩
  · intro hIdx k p hk
    rw [runRecentPayments_eq, hIdx, if_pos rfl]
    exact mem_sortByB.mpr (recordsOf_mem hk)
  · intro hIdx k p hk
    rw [runLatestUsers_eq, hIdx, if_pos rfl]
    exact mem_sortByB.mpr (userRecordsOf_mem hk)

/-- Witness for C8 at a concrete snapshot holding a non-mapping entry
(`"bad"`): the well-formed entries still come through, and removing
the malformed entry leaves `fetch_valid_payments_24h` unchanged. -/
theorem C8_malformed_skipped_witness :
    ("bad", Entry.malformed) ∈ dbW2.paymentList ∧
    (⟨"k1", wPay1⟩ : PaymentRecord) ∈ runRecentPayments dbW2 5 ∧
    runValid24h (cleanPayments dbW2) 500 = runValid24h dbW2 500 := by
  have h := C8_malformed_skipped dbW2 5 "user1" 500
  exact ⟨by decide, h.2.1 rfl "k1" wPay1 (by decide), h.2.2.1⟩
